import Mathlib

/-!
# Evaluation caching and search control of the planner's search core

A shallow embedding of `evaluation_context.h`, `evaluators/g_evaluator.cc`,
`search_progress.{h,cc}` and `search_engine.{h,cc}`, followed by theorems about
the embedded functions.

Conventions of the embedding.

* A C++ `int` is an `Int`; the one place where the code adds two ints
  (`GEvaluator`) goes through `int_add`, which wraps to 32 bits.
* A pointer is a natural number (an address); the pointee is looked up in a
  table that is passed along (`evs` for `Evaluator *`, `World.stats` for
  `SearchStatistics *`).
* `assert(c)` is a check: a function containing one returns `none` when the
  asserted condition is false.
* Output to the log and to `cerr` is left out, except where a definition says
  that it records it.
* A loop that may run forever takes a fuel argument and returns `none` when
  the fuel runs out.
-/

namespace Downward

/-! ## Machine integers -/

/-- The value of `numeric_limits<int>::max()`. -/
def INT_MAX : Int := 2147483647

/-- Reduction of an integer to the 32 bit two's complement range. -/
def wrap_int (x : Int) : Int := (x + 2147483648) % 4294967296 - 2147483648

/-- The `+` of two C++ ints. -/
def int_add (a b : Int) : Int := wrap_int (a + b)

/-- The `*` of two C++ ints. -/
def int_mul (a b : Int) : Int := wrap_int (a * b)

/-! ## Identities -/

/-- An `Evaluator *`: evaluators are told apart by address. -/
abbrev EvaluatorId := Nat

/-- A state of the task, as handed out by the state registry. -/
abbrev State := Nat

/-- Modelled from the spec: `operator_id.h` is not among the sources. An
operator id is either the index of an operator or the explicit no-operator
sentinel (`OperatorID::no_operator`), here `none`. -/
abbrev OperatorID := Option Nat

/-- The sentinel `OperatorID::no_operator`. -/
def OperatorID.no_operator : OperatorID := none

/-! ## Evaluation results -/

/-- Modelled from the spec: `evaluation_result.h` is not among the sources. A
result is a value object with an int value (finite, or the infinite sentinel
`INFTY`), the preferred operators, the count-evaluation flag, and an
uninitialized state that is distinct from every result an evaluator has set a
value on. -/
structure EvaluationResult where
  uninitialized : Bool
  evaluator_value : Int
  preferred_operators : List OperatorID
  count_evaluation : Bool
deriving DecidableEq, Repr

namespace EvaluationResult

/-- The sentinel for infinite estimates: `numeric_limits<int>::max()`, as the
comment on `get_evaluator_value_or_infinity` says. -/
def INFTY : Int := INT_MAX

/-- The default-constructed result, `EvaluationResult result;`: it is what a
fresh cache slot holds and it is uninitialized. -/
def fresh : EvaluationResult :=
  { uninitialized := true, evaluator_value := 0, preferred_operators := [],
    count_evaluation := true }

/-- The test `result.is_uninitialized()`. -/
def is_uninitialized (r : EvaluationResult) : Bool := r.uninitialized

/-- The test `result.is_infinite()`. -/
def is_infinite (r : EvaluationResult) : Bool := decide (r.evaluator_value = INFTY)

/-- The getter `result.get_evaluator_value()`. -/
def get_evaluator_value (r : EvaluationResult) : Int := r.evaluator_value

/-- The getter `result.get_preferred_operators()`. -/
def get_preferred_operators (r : EvaluationResult) : List OperatorID :=
  r.preferred_operators

/-- The getter `result.get_count_evaluation()`. -/
def get_count_evaluation (r : EvaluationResult) : Bool := r.count_evaluation

/-- The setter `result.set_evaluator_value(value)`: the result now carries a
value and is no longer uninitialized. -/
def set_evaluator_value (r : EvaluationResult) (value : Int) : EvaluationResult :=
  { r with uninitialized := false, evaluator_value := value }

/-- The setter `result.set_count_evaluation(flag)`. -/
def set_count_evaluation (r : EvaluationResult) (flag : Bool) : EvaluationResult :=
  { r with count_evaluation := flag }

end EvaluationResult

/-! ## The evaluator cache -/

/-- Modelled from the spec: `evaluator_cache.h` is not among the sources. The
cache maps evaluator addresses to results; it is kept as an association list
so that its entries can be enumerated (`for_each_evaluator_result`). -/
abbrev EvaluatorCache := List (EvaluatorId × EvaluationResult)

/-- The slot of `e` as `cache[e]` reads it: the stored result, or the
placeholder when there is no entry. -/
def cache_at (c : EvaluatorCache) (e : EvaluatorId) : EvaluationResult :=
  (c.lookup e).getD EvaluationResult.fresh

/-- The side effect of `cache[e]`: an absent key gets an entry holding the
uninitialized placeholder. -/
def cache_index (c : EvaluatorCache) (e : EvaluatorId) : EvaluatorCache :=
  if (c.lookup e).isSome then c else c ++ [(e, EvaluationResult.fresh)]

/-- Assignment through the reference `cache[e]` returned: the entry of `e`
is replaced in place. -/
def cache_assign (c : EvaluatorCache) (e : EvaluatorId) (r : EvaluationResult) :
    EvaluatorCache :=
  c.map (fun p => if p.1 = e then (e, r) else p)

/-- The keys of the cache, in enumeration order. -/
def cache_keys (c : EvaluatorCache) : List EvaluatorId := c.map Prod.fst

/-! ## Statistics -/

/-- Modelled from the spec: `search_statistics.h` is not among the sources.
Only the shared evaluation counter is kept. -/
structure SearchStatistics where
  evaluations : Nat
deriving DecidableEq, Repr

/-- The call `statistics->inc_evaluations()`. -/
def SearchStatistics.inc_evaluations (s : SearchStatistics) : SearchStatistics :=
  { s with evaluations := s.evaluations + 1 }

/-! ## Evaluation contexts -/

/-- The class `EvaluationContext<Entry>`, with the members in the order of the
source. `statistics` is a pointer: `none` is `nullptr`. -/
structure EvaluationContext where
  cache : EvaluatorCache
  state : State
  operator_id : OperatorID
  preferred : Bool
  statistics : Option Nat
  calculate_preferred : Bool
deriving DecidableEq, Repr

/-- Everything a call on a context can touch: the context, the statistics
objects by address, the evaluators' own state, and a ghost log that lists, in
order, the evaluators whose `compute_result` has been invoked. -/
structure World (σ : Type) where
  ctx : EvaluationContext
  stats : Nat → SearchStatistics
  est : σ
  computed : List EvaluatorId

/-- What the code needs of the abstract class `Evaluator` (`evaluator.h` is
not among the sources): `compute_result` and the three usage flags. The method
`compute_result` is handed the context by reference (`compute_result(*this)`),
so it runs in the world and returns the world as it leaves it: it may call
`get_result` on the context for other evaluators, which fills their slots and
may raise the evaluation counter, and it may update the state kept on the
evaluators' side (`σ`). -/
structure Evaluator (σ : Type) where
  compute_result : World σ → EvaluationResult × World σ
  is_used_for_reporting_minima : Bool
  is_used_for_boosting : Bool
  is_used_for_counting_evaluations : Bool

/-- The `compute_result` of an evaluator that only reads the context it is
handed and updates its own state, as `GEvaluator::compute_result` does. -/
def compute_by_reading {σ : Type} (f : EvaluationContext → σ → EvaluationResult × σ)
    (w : World σ) : EvaluationResult × World σ :=
  ((f w.ctx w.est).1, { w with est := (f w.ctx w.est).2 })

/-- The context after `cache[e]` has been evaluated on its cache: the slot of
`e` exists. -/
def with_slot (ctx : EvaluationContext) (e : EvaluatorId) : EvaluationContext :=
  { ctx with cache := cache_index ctx.cache e }

/-- The world in which `get_result` calls `compute_result` of `e`: the slot of
`e` exists in the cache of the context, and the ghost log has recorded the
call. -/
def entered {σ : Type} (w : World σ) (e : EvaluatorId) : World σ :=
  { w with ctx := with_slot w.ctx e, computed := w.computed ++ [e] }

/-- The method `EvaluationContext::get_result`. The assignment
`result = evaluator->compute_result(*this)` writes through the reference that
`cache[evaluator]` gave before the call; entries of the map are never erased,
so the reference still stands for the slot of `evaluator` in the cache as
`compute_result` left it, which `cache_index` states. The member `statistics`
is read after `compute_result` has returned. -/
def get_result {σ : Type} (evs : EvaluatorId → Evaluator σ) (evaluator : EvaluatorId)
    (w : World σ) : EvaluationResult × World σ :=
  let ctx1 := with_slot w.ctx evaluator
  let result := cache_at ctx1.cache evaluator
  if result.is_uninitialized then
    let computed := (evs evaluator).compute_result (entered w evaluator)
    let result1 := computed.1
    let stats1 :=
      match computed.2.ctx.statistics with
      | some p =>
        if (evs evaluator).is_used_for_counting_evaluations
            && result1.get_count_evaluation then
          Function.update computed.2.stats p (computed.2.stats p).inc_evaluations
        else computed.2.stats
      | none => computed.2.stats
    (result1,
      { ctx := { computed.2.ctx with
                 cache := cache_assign (cache_index computed.2.ctx.cache evaluator)
                   evaluator result1 },
        stats := stats1, est := computed.2.est,
        computed := computed.2.computed })
  else
    (result, { w with ctx := ctx1 })

/-- Whether every `compute_result` of the table leaves the filled slots of the
cache as they are, as it does when it reaches the cache through `get_result`
only. -/
def keeps_filled_slots {σ : Type} (evs : EvaluatorId → Evaluator σ) : Prop :=
  ∀ (e e1 : EvaluatorId) (w : World σ),
    (cache_at w.ctx.cache e1).is_uninitialized = false →
      cache_at ((evs e).compute_result w).2.ctx.cache e1 = cache_at w.ctx.cache e1

/-- The calls `get_result(evaluator)` made `n` times in a row on the same
context: the results in call order, and the world afterwards. -/
def get_result_times {σ : Type} (evs : EvaluatorId → Evaluator σ) (evaluator : EvaluatorId) :
    Nat → World σ → List EvaluationResult × World σ
  | 0, w => ([], w)
  | n + 1, w =>
    let first := get_result evs evaluator w
    let rest := get_result_times evs evaluator n first.2
    (first.1 :: rest.1, rest.2)

/-- The method `EvaluationContext::get_cache`. -/
def get_cache (ctx : EvaluationContext) : EvaluatorCache := ctx.cache

/-- The method `EvaluationContext::get_state`. -/
def get_state (ctx : EvaluationContext) : State := ctx.state

/-- The method `EvaluationContext::is_preferred`. -/
def is_preferred (ctx : EvaluationContext) : Bool := ctx.preferred

/-- The method `EvaluationContext::get_calculate_preferred`. -/
def get_calculate_preferred (ctx : EvaluationContext) : Bool := ctx.calculate_preferred

/-- A state id, the entry of a state-only context. -/
abbrev StateID := Nat

/-- The state registry, as far as the constructors use it: `lookup_state`. -/
structure StateRegistry where
  lookup_state : StateID → State

/-- The private constructor of `EvaluationContext`, which the public ones
delegate to. -/
def EvaluationContext.create (cache : EvaluatorCache) (state : State)
    (operator_id : OperatorID) (is_preferred : Bool) (statistics : Option Nat)
    (calculate_preferred : Bool) : EvaluationContext :=
  { cache := cache, state := state, operator_id := operator_id, preferred := is_preferred,
    statistics := statistics, calculate_preferred := calculate_preferred }

/-- The constructor that copies the cache of another context ("Copy existing
heuristic cache and use it to look up heuristic values"). -/
def EvaluationContext.copy (other : EvaluationContext) (is_preferred : Bool)
    (statistics : Option Nat) (calculate_preferred : Bool) : EvaluationContext :=
  EvaluationContext.create other.cache other.state other.operator_id is_preferred
    statistics calculate_preferred

/-- The constructor of `StateEvaluationContext` from a state id. -/
def StateEvaluationContext.create (entry : StateID) (registry : StateRegistry)
    (is_preferred : Bool) (statistics : Option Nat) (calculate_preferred : Bool) :
    EvaluationContext :=
  EvaluationContext.create [] (registry.lookup_state entry) OperatorID.no_operator
    is_preferred statistics calculate_preferred

/-- The constructor of `EdgeEvaluationContext` from a state id and an operator
id. -/
def EdgeEvaluationContext.create (entry : StateID × OperatorID) (registry : StateRegistry)
    (is_preferred : Bool) (statistics : Option Nat) (calculate_preferred : Bool) :
    EvaluationContext :=
  EvaluationContext.create [] (registry.lookup_state entry.1) entry.2
    is_preferred statistics calculate_preferred

/-- A line written to `cerr`. -/
inductive CerrLine where
  | state_context_has_no_operator_id
deriving DecidableEq, Repr

/-- The method `StateEvaluationContext::get_operator_id`: it writes a line to
`cerr` and returns the stored operator id. -/
def StateEvaluationContext.get_operator_id (ctx : EvaluationContext) :
    OperatorID × List CerrLine :=
  (ctx.operator_id, [.state_context_has_no_operator_id])

/-- The method `EdgeEvaluationContext::get_operator_id`. -/
def EdgeEvaluationContext.get_operator_id (ctx : EvaluationContext) : OperatorID :=
  ctx.operator_id

/-- The method `EvaluationContext::is_evaluator_value_infinite`. -/
def is_evaluator_value_infinite {σ : Type} (evs : EvaluatorId → Evaluator σ)
    (eval : EvaluatorId) (w : World σ) : Bool × World σ :=
  let got := get_result evs eval w
  (got.1.is_infinite, got.2)

/-- The method `EvaluationContext::get_evaluator_value`; `none` is the failure
of `assert(h != EvaluationResult::INFTY)`. -/
def get_evaluator_value {σ : Type} (evs : EvaluatorId → Evaluator σ)
    (eval : EvaluatorId) (w : World σ) : Option (Int × World σ) :=
  let got := get_result evs eval w
  let h := got.1.get_evaluator_value
  if h ≠ EvaluationResult.INFTY then some (h, got.2) else none

/-- The method `EvaluationContext::get_evaluator_value_or_infinity`. -/
def get_evaluator_value_or_infinity {σ : Type} (evs : EvaluatorId → Evaluator σ)
    (eval : EvaluatorId) (w : World σ) : Int × World σ :=
  let got := get_result evs eval w
  (got.1.get_evaluator_value, got.2)

/-- The method `EvaluationContext::get_preferred_operators`. -/
def get_preferred_operators {σ : Type} (evs : EvaluatorId → Evaluator σ)
    (eval : EvaluatorId) (w : World σ) : List OperatorID × World σ :=
  let got := get_result evs eval w
  (got.1.get_preferred_operators, got.2)

/-! ## The weighted evaluator -/

/-- Modelled from the spec: `weighted_evaluator.cc` is not among the sources;
the header declares the class with its inner evaluator and its weight `w`. The
evaluator asks the context for the result of its inner evaluator and returns
that value multiplied by the weight, while an infinite value stays infinite;
the preferred operators are those of the inner result. -/
def WeightedEvaluator.compute_result {σ : Type} (evs : EvaluatorId → Evaluator σ)
    (evaluator : EvaluatorId) (w : Int) (world : World σ) : EvaluationResult × World σ :=
  let got := get_result evs evaluator world
  let value :=
    if got.1.is_infinite then got.1.get_evaluator_value
    else int_mul got.1.get_evaluator_value w
  ({ (EvaluationResult.fresh.set_evaluator_value value) with
      preferred_operators := got.1.get_preferred_operators }, got.2)

/-! ## The path-cost evaluator -/

/-- An entry of `heuristic_cache`: the cached cost and the dirty flag. -/
structure HEntry where
  h : Int
  dirty : Bool
deriving DecidableEq, Repr

/-- The class `GEvaluator`. Of its base class (`heuristic.h` is not among the
sources) it uses the constant `NO_VALUE`, taken as a field, the operator costs
of the task (`task_proxy.get_operators()[i].get_cost()`), and the per-state
table `heuristic_cache`. -/
structure GEvaluator where
  NO_VALUE : Int
  get_cost : Nat → Int
  heuristic_cache : State → HEntry

namespace GEvaluator

/-- The method `GEvaluator::compute_result`. -/
def compute_result (g : GEvaluator) (eval_context : EvaluationContext) :
    EvaluationResult × GEvaluator :=
  let result := EvaluationResult.fresh
  let parent_state := get_state eval_context
  let value := (g.heuristic_cache parent_state).h
  match EdgeEvaluationContext.get_operator_id eval_context with
  | none =>
    ((result.set_count_evaluation false).set_evaluator_value value,
      { g with heuristic_cache :=
          (Function.update g.heuristic_cache parent_state
            (HEntry.mk (g.heuristic_cache parent_state).h false)) })
  | some index =>
    ((result.set_count_evaluation true).set_evaluator_value
        (int_add value (g.get_cost index)), g)

/-- The method `GEvaluator::notify_initial_state`. -/
def notify_initial_state (g : GEvaluator) (initial_state : State) : GEvaluator :=
  { g with heuristic_cache :=
      Function.update g.heuristic_cache initial_state (HEntry.mk 0 true) }

/-- The method `GEvaluator::notify_state_transition`. The result is `none`
when one of its two assertions fails, and also for the no-operator sentinel,
which is no index into the operators of the task. -/
def notify_state_transition (g : GEvaluator) (parent_state : State) (op_id : OperatorID)
    (state : State) : Option GEvaluator :=
  match op_id with
  | none => none
  | some index =>
    let parent_g := (g.heuristic_cache parent_state).h
    if parent_g ≥ 0 then
      let old_g := (g.heuristic_cache state).h
      if old_g = g.NO_VALUE ∨ old_g ≥ 0 then
        let new_g := int_add parent_g (g.get_cost index)
        if old_g = g.NO_VALUE ∨ new_g < old_g then
          some { g with heuristic_cache :=
            (Function.update g.heuristic_cache state (HEntry.mk new_g true)) }
        else some g
      else none
    else none

/-- The path-cost evaluator as an evaluator of the cache: its own state is
the `GEvaluator` object. The three usage flags are those of the instance. -/
def as_evaluator (reporting boosting counting : Bool) : Evaluator GEvaluator :=
  { compute_result := compute_by_reading (fun eval_context g => g.compute_result eval_context),
    is_used_for_reporting_minima := reporting,
    is_used_for_boosting := boosting,
    is_used_for_counting_evaluations := counting }

/-- A call of one of the three methods through which the search reaches the
path-cost evaluator. -/
inductive Call where
  | notify_initial_state (initial_state : State)
  | notify_state_transition (parent_state : State) (op_id : OperatorID) (state : State)
  | compute_result (eval_context : EvaluationContext)

/-- The effect of one call on the evaluator; `none` when the call fails. -/
def call (g : GEvaluator) : Call → Option GEvaluator
  | .notify_initial_state initial_state => some (g.notify_initial_state initial_state)
  | .notify_state_transition parent_state op_id state =>
    g.notify_state_transition parent_state op_id state
  | .compute_result eval_context => some (g.compute_result eval_context).2

/-- The effect of a list of calls made in order; `none` when one of them
fails. -/
def calls (g : GEvaluator) : List Call → Option GEvaluator
  | [] => some g
  | c :: rest => (g.call c).bind (fun g1 => g1.calls rest)

/-- Whether a call is a no-operator query on `state`: a `compute_result` on a
context of that state whose operator id is the no-operator sentinel. -/
def Call.is_state_query (state : State) : Call → Bool
  | .compute_result eval_context =>
    decide (eval_context.operator_id = OperatorID.no_operator ∧ eval_context.state = state)
  | _ => false

end GEvaluator

/-! ## Search progress -/

/-- The enumeration `utils::Verbosity`, in increasing order. -/
inductive Verbosity where
  | SILENT
  | NORMAL
  | VERBOSE
  | DEBUG
deriving DecidableEq, Repr

/-- The rank of a verbosity level, for `verbosity >= utils::Verbosity::NORMAL`. -/
def Verbosity.rank : Verbosity → Nat
  | .SILENT => 0
  | .NORMAL => 1
  | .VERBOSE => 2
  | .DEBUG => 3

/-- The class `SearchProgress`: `min_values e = none` when the map has no
entry for `e`. -/
structure SearchProgress where
  verbosity : Verbosity
  min_values : EvaluatorId → Option Int

/-- The method `SearchProgress::process_evaluator_value`. -/
def process_evaluator_value (sp : SearchProgress) (evaluator : EvaluatorId) (value : Int) :
    Bool × SearchProgress :=
  match sp.min_values evaluator with
  | none =>
    (true, { sp with min_values := Function.update sp.min_values evaluator (some value) })
  | some min_value =>
    if value < min_value then
      (true, { sp with min_values := Function.update sp.min_values evaluator (some value) })
    else (false, sp)

/-- The values of a list fed to `process_evaluator_value` for one evaluator,
one call after the other: the answers in call order, and the record
afterwards. -/
def process_values (sp : SearchProgress) (evaluator : EvaluatorId) :
    List Int → List Bool × SearchProgress
  | [] => ([], sp)
  | value :: rest =>
    let first := process_evaluator_value sp evaluator value
    let later := process_values first.2 evaluator rest
    (first.1 :: later.1, later.2)

/-- The state threaded through the callback of `check_progress`: the local
`boost`, the progress record, and the evaluators whose
`report_new_minimum_value` was called, in order. -/
structure ProgressStep where
  boost : Bool
  progress : SearchProgress
  reported : List EvaluatorId

/-- The lambda passed to `for_each_evaluator_result` in `check_progress`. -/
def check_progress_callback {σ : Type} (evs : EvaluatorId → Evaluator σ)
    (acc : ProgressStep) (entry : EvaluatorId × EvaluationResult) : ProgressStep :=
  let eval := entry.1
  let result := entry.2
  if (evs eval).is_used_for_reporting_minima || (evs eval).is_used_for_boosting then
    let processed := process_evaluator_value acc.progress eval result.get_evaluator_value
    if processed.1 then
      { boost := if (evs eval).is_used_for_boosting then true else acc.boost,
        progress := processed.2,
        reported :=
          if decide (acc.progress.verbosity.rank ≥ Verbosity.NORMAL.rank)
              && (evs eval).is_used_for_reporting_minima then
            acc.reported ++ [eval]
          else acc.reported }
    else { acc with progress := processed.2 }
  else acc

/-- The method `SearchProgress::check_progress`. -/
def check_progress {σ : Type} (evs : EvaluatorId → Evaluator σ) (sp : SearchProgress)
    (eval_context : EvaluationContext) : ProgressStep :=
  (get_cache eval_context).foldl (check_progress_callback evs)
    { boost := false, progress := sp, reported := [] }

/-- Whether `value` is a new minimum for `evaluator` in the record: the
evaluator has not been seen, or the value is below the recorded one. -/
def is_new_minimum (sp : SearchProgress) (evaluator : EvaluatorId) (value : Int) : Bool :=
  match sp.min_values evaluator with
  | none => true
  | some min_value => decide (value < min_value)

/-! ## The search engine -/

/-- The enumeration `SearchStatus`. -/
inductive SearchStatus where
  | IN_PROGRESS
  | TIMEOUT
  | FAILED
  | SOLVED
deriving DecidableEq, Repr

/-- A plan: the operators of a path, in order. -/
abbrev Plan := List OperatorID

/-- The members of `SearchEngine` that code of a derived class can change:
`solution_found` and `plan` through `set_plan`, the bound, and everything the
derived class keeps itself (`derived`, search space included). -/
structure EngineData (τ : Type) where
  solution_found : Bool
  plan : Plan
  bound : Int
  derived : τ

/-- A call of one of the two virtual methods that `search` makes. -/
inductive HookCall where
  | init
  | step
deriving DecidableEq, Repr

/-- The class `SearchEngine`: the private `status`, the members a derived
class can change, and a ghost log of the virtual calls made by `search`. -/
structure SearchEngine (τ : Type) where
  status : SearchStatus
  data : EngineData τ
  calls : List HookCall

/-- The two virtual methods of the engine, given by the derived class. Both
see the engine and return the members they may change; `step` also returns
its status. -/
structure EngineHooks (τ : Type) where
  init_hook : SearchEngine τ → EngineData τ
  step : SearchEngine τ → SearchStatus × EngineData τ

/-- The collaborators of `check_goal_and_set_plan`: the goal test of the task
and the path reconstruction of the search space. -/
structure TaskEnv (τ : Type) where
  is_goal_state : State → Bool
  trace_path : τ → State → Plan

/-- The state of a constructed engine after the member initialisers
`status(IN_PROGRESS), solution_found(false)`; the plan is empty. -/
def SearchEngine.constructed {τ : Type} (bound : Int) (derived : τ) : SearchEngine τ :=
  { status := .IN_PROGRESS,
    data := { solution_found := false, plan := [], bound := bound, derived := derived },
    calls := [] }

/-- The method `SearchEngine::found_solution`. -/
def found_solution {τ : Type} (e : SearchEngine τ) : Bool := e.data.solution_found

/-- The method `SearchEngine::get_status`. -/
def get_status {τ : Type} (e : SearchEngine τ) : SearchStatus := e.status

/-- The method `SearchEngine::get_plan`; `none` is the failure of
`assert(solution_found)`. -/
def get_plan {τ : Type} (e : SearchEngine τ) : Option Plan :=
  if e.data.solution_found then some e.data.plan else none

/-- The method `SearchEngine::set_plan`. -/
def set_plan {τ : Type} (d : EngineData τ) (p : Plan) : EngineData τ :=
  { d with solution_found := true, plan := p }

/-- The method `SearchEngine::check_goal_and_set_plan`. -/
def check_goal_and_set_plan {τ : Type} (env : TaskEnv τ) (d : EngineData τ) (state : State) :
    Bool × EngineData τ :=
  if env.is_goal_state state then
    (true, set_plan d (env.trace_path d.derived state))
  else (false, d)

/-- The loop of `SearchEngine::search`. `is_expired k` is the answer of
`timer.is_expired()` at the check with number `k` (counted from 0); `checks`
is the number of checks made so far. -/
def search_loop {τ : Type} (hooks : EngineHooks τ) (is_expired : Nat → Bool) :
    Nat → Nat → SearchEngine τ → Option (SearchEngine τ)
  | 0, _, e => if e.status = .IN_PROGRESS then none else some e
  | fuel + 1, checks, e =>
    if e.status = .IN_PROGRESS then
      let stepped := hooks.step e
      let e1 : SearchEngine τ :=
        { status := stepped.1, data := stepped.2, calls := e.calls ++ [.step] }
      if is_expired checks then some { e1 with status := .TIMEOUT }
      else search_loop hooks is_expired fuel (checks + 1) e1
    else some e

/-- The engine after the call of the virtual `initialize()` that opens
`search`. -/
def after_init {τ : Type} (hooks : EngineHooks τ) (e : SearchEngine τ) : SearchEngine τ :=
  { e with data := hooks.init_hook e, calls := e.calls ++ [.init] }

/-- The method `SearchEngine::search`, with `fuel` bounding the number of
iterations of its loop. -/
def search {τ : Type} (hooks : EngineHooks τ) (is_expired : Nat → Bool) (fuel : Nat)
    (e : SearchEngine τ) : Option (SearchEngine τ) :=
  search_loop hooks is_expired fuel 0 (after_init hooks e)

/-- The number of `step()` calls in a log. -/
def step_calls (calls : List HookCall) : Nat := calls.count .step

/-- A `step()` that calls `check_goal_and_set_plan` on the state `pick` chooses
and returns `SOLVED` when that call reports success, and the status `otherwise`
gives when it does not. -/
def goal_checking_step {τ : Type} (env : TaskEnv τ) (pick : SearchEngine τ → State)
    (otherwise : SearchEngine τ → SearchStatus) (e : SearchEngine τ) :
    SearchStatus × EngineData τ :=
  let checked := check_goal_and_set_plan env e.data (pick e)
  if checked.1 then (.SOLVED, checked.2) else (otherwise e, checked.2)

/-! ## Construction of the engine -/

/-- The exit code of `utils::ExitCode` that the constructor uses. -/
inductive ExitCode where
  | SEARCH_INPUT_ERROR
deriving DecidableEq, Repr

/-- The options that the constructor of `SearchEngine` reads, as far as the
engine of the model keeps them: the cost bound and the verbosity. -/
structure Options where
  bound : Int
  verbosity : Verbosity

/-- The options `real_g_eval_opts` handed to the constructor of the real-g
evaluator; the task transformation is left out. -/
structure EvaluatorOptions where
  cache_estimates : Bool
deriving DecidableEq, Repr

/-- The outcome of a construction that did not exit: the engine, and the
member `real_g_evaluator` (`none` is the null pointer), given by the options
it was made from. -/
structure ConstructedEngine (τ : Type) where
  engine : SearchEngine τ
  real_g_evaluator : Option EvaluatorOptions

/-- The constructor `SearchEngine::SearchEngine`. An error is a call of
`utils::exit_with`. The method `does_cache_estimates` of the evaluator
(`heuristic.h` is not among the sources) is a parameter: it answers for an
evaluator made from the given options. -/
def SearchEngine.create {τ : Type} (does_cache_estimates : EvaluatorOptions → Bool)
    (opts : Options) (derived : τ) : Except ExitCode (ConstructedEngine τ) :=
  if opts.bound < 0 then .error .SEARCH_INPUT_ERROR
  else
    let bound := opts.bound
    let real_g_evaluator : Option EvaluatorOptions :=
      if bound ≠ INT_MAX then some { cache_estimates := true } else none
    match real_g_evaluator with
    | some g =>
      if !does_cache_estimates g then .error .SEARCH_INPUT_ERROR
      else .ok { engine := SearchEngine.constructed bound derived,
                 real_g_evaluator := some g }
    | none =>
      .ok { engine := SearchEngine.constructed bound derived, real_g_evaluator := none }

/-! ## Caches in storage -/

/-- The maps behind the `EvaluatorCache` objects that exist, by address; the
addresses below `next` are in use. -/
structure CacheStorage where
  maps : Nat → EvaluatorCache
  next : Nat

/-- Modelled from the spec: the copy constructor of `EvaluatorCache`
(`evaluator_cache.h` is not among the sources). The spec has the cache
"shared-by-copy, not shared-by-reference": the copy is a map of its own, at an
address not in use before, that holds the entries of the map at `other`. The
outcome is the address of the copy and the storage afterwards. -/
def EvaluatorCache.copy_construct (storage : CacheStorage) (other : Nat) :
    Nat × CacheStorage :=
  (storage.next,
    { maps := Function.update storage.maps storage.next (storage.maps other),
      next := storage.next + 1 })

/-- A context object in storage: its member `cache` is given by the address of
its map, the other members are as in `EvaluationContext`. -/
structure StoredContext where
  cache : Nat
  state : State
  operator_id : OperatorID
  preferred : Bool
  statistics : Option Nat
  calculate_preferred : Bool
deriving DecidableEq, Repr

/-- The context that a stored context stands for. -/
def StoredContext.load (c : StoredContext) (storage : CacheStorage) : EvaluationContext :=
  { cache := storage.maps c.cache, state := c.state, operator_id := c.operator_id,
    preferred := c.preferred, statistics := c.statistics,
    calculate_preferred := c.calculate_preferred }

/-- The copying constructor of `EvaluationContext` on contexts in storage: the
member initialiser `cache(cache)` copy-constructs the cache, the other members
are set as in `EvaluationContext.copy`. -/
def StoredContext.copy (storage : CacheStorage) (other : StoredContext)
    (is_preferred : Bool) (statistics : Option Nat) (calculate_preferred : Bool) :
    StoredContext × CacheStorage :=
  ({ cache := (EvaluatorCache.copy_construct storage other.cache).1,
     state := other.state, operator_id := other.operator_id, preferred := is_preferred,
     statistics := statistics, calculate_preferred := calculate_preferred },
    (EvaluatorCache.copy_construct storage other.cache).2)

/-- The storage together with what all contexts share: the statistics objects,
the evaluators' state and the ghost log. -/
structure StoredWorld (σ : Type) where
  storage : CacheStorage
  stats : Nat → SearchStatistics
  est : σ
  computed : List EvaluatorId

/-- The world seen from a context in storage. -/
def StoredWorld.world {σ : Type} (h : StoredWorld σ) (c : StoredContext) : World σ :=
  { ctx := c.load h.storage, stats := h.stats, est := h.est, computed := h.computed }

/-- The call `get_result(evaluator)` on a context in storage: the map of that
context is left as `get_result` leaves the cache. -/
def get_result_stored {σ : Type} (evs : EvaluatorId → Evaluator σ) (c : StoredContext)
    (evaluator : EvaluatorId) (h : StoredWorld σ) : EvaluationResult × StoredWorld σ :=
  let got := get_result evs evaluator (h.world c)
  (got.1,
    { storage :=
        { maps := Function.update h.storage.maps c.cache got.2.ctx.cache,
          next := h.storage.next },
      stats := got.2.stats, est := got.2.est, computed := got.2.computed })

/-! ## Sequences of progress calls -/

/-- The calls `process_evaluator_value(evaluator, value)` of a list made in
order, for whatever evaluators: the record afterwards. -/
def process_calls (sp : SearchProgress) : List (EvaluatorId × Int) → SearchProgress
  | [] => sp
  | c :: rest => process_calls (process_evaluator_value sp c.1 c.2).2 rest

/-! ## Sequences of accessor calls -/

/-- The accessors of a context that go through `get_result` and cannot fail. -/
inductive Accessor where
  | is_evaluator_value_infinite
  | get_evaluator_value_or_infinity
  | get_preferred_operators
  | get_result
deriving DecidableEq, Repr

/-- What an accessor returns. -/
inductive AccessorAnswer where
  | infinite (answer : Bool)
  | value (answer : Int)
  | preferred_operators (answer : List OperatorID)
  | result (answer : EvaluationResult)
deriving DecidableEq, Repr

/-- The call of one accessor for `eval` on the context of the world. -/
def call_accessor {σ : Type} (evs : EvaluatorId → Evaluator σ) (eval : EvaluatorId)
    (w : World σ) : Accessor → AccessorAnswer × World σ
  | .is_evaluator_value_infinite =>
    (.infinite (is_evaluator_value_infinite evs eval w).1,
      (is_evaluator_value_infinite evs eval w).2)
  | .get_evaluator_value_or_infinity =>
    (.value (get_evaluator_value_or_infinity evs eval w).1,
      (get_evaluator_value_or_infinity evs eval w).2)
  | .get_preferred_operators =>
    (.preferred_operators (get_preferred_operators evs eval w).1,
      (get_preferred_operators evs eval w).2)
  | .get_result => (.result (get_result evs eval w).1, (get_result evs eval w).2)

/-- The calls of a list of accessors for `eval`, made in order on the same
context: the answers in call order, and the world afterwards. -/
def call_accessors {σ : Type} (evs : EvaluatorId → Evaluator σ) (eval : EvaluatorId) :
    List Accessor → World σ → List AccessorAnswer × World σ
  | [], w => ([], w)
  | a :: rest, w =>
    let first := call_accessor evs eval w a
    let later := call_accessors evs eval rest first.2
    (first.1 :: later.1, later.2)

/-- The field of a result that an accessor hands out. -/
def field_of (r : EvaluationResult) : Accessor → AccessorAnswer
  | .is_evaluator_value_infinite => .infinite r.is_infinite
  | .get_evaluator_value_or_infinity => .value r.get_evaluator_value
  | .get_preferred_operators => .preferred_operators r.get_preferred_operators
  | .get_result => .result r

/-! ## Iterations of the search loop -/

/-- The engine after one iteration of the loop of `search` in which the timer
check finds the timer not expired: `status = step()`. -/
def stepped {τ : Type} (hooks : EngineHooks τ) (e : SearchEngine τ) : SearchEngine τ :=
  { status := (hooks.step e).1, data := (hooks.step e).2, calls := e.calls ++ [.step] }

/-- The engine after `n` such iterations. -/
def run_steps {τ : Type} (hooks : EngineHooks τ) : Nat → SearchEngine τ → SearchEngine τ
  | 0, e => e
  | n + 1, e => run_steps hooks n (stepped hooks e)

/-! ## Notification histories -/

namespace GEvaluator

/-- A transition that the search notifies: `state` is reached from
`parent_state` by the operator with index `index`. -/
structure Transition where
  parent_state : State
  index : Nat
  state : State
deriving DecidableEq, Repr

/-- The calls of a notification history: `notify_initial_state` for the initial
state, then `notify_state_transition` for each transition in order. -/
def history (initial_state : State) (transitions : List Transition) : List Call :=
  Call.notify_initial_state initial_state ::
    transitions.map (fun t => Call.notify_state_transition t.parent_state (some t.index) t.state)

/-- Whether the parent of each transition is among the states `reached`, which
are the initial state and the children of the transitions before it. -/
def parents_reached : List State → List Transition → Prop
  | _, [] => True
  | reached, t :: rest => t.parent_state ∈ reached ∧ parents_reached (t.state :: reached) rest

/-- Whether, along a list of calls made on `g`, the sum of parent cost and
operator cost that each `notify_state_transition` forms is at most the largest
int. The evaluator after a call is the one `call` gives. -/
def sums_in_range (g : GEvaluator) : List Call → Prop
  | [] => True
  | c :: rest =>
    (match c with
      | .notify_state_transition parent_state (some index) _ =>
        (g.heuristic_cache parent_state).h + g.get_cost index ≤ INT_MAX
      | _ => True)
    ∧ (match g.call c with
      | some g1 => sums_in_range g1 rest
      | none => True)

end GEvaluator

/-! ## Example inputs -/

/-- A task whose initial state `0` is a goal state: the path traced back from
the initial state has no operator, every other state is reached by operator 0. -/
def goal_is_initial_env : TaskEnv Unit :=
  { is_goal_state := fun state => decide (state = 0),
    trace_path := fun _ state => if state = 0 then [] else [some 0] }

/-- An engine whose `step()` checks the initial state `0` with
`check_goal_and_set_plan` and goes on searching when that fails. -/
def goal_is_initial_hooks : EngineHooks Unit :=
  { init_hook := fun e => e.data,
    step := goal_checking_step goal_is_initial_env (fun _ => 0) (fun _ => .IN_PROGRESS) }

/-- A task with a goal state `1` one operator away from the initial state. -/
def one_step_env : TaskEnv Unit :=
  { is_goal_state := fun state => decide (state = 1),
    trace_path := fun _ state => if state = 1 then [some 0] else [] }

/-- An engine whose `step()` checks state `1` with `check_goal_and_set_plan`. -/
def one_step_hooks : EngineHooks Unit :=
  { init_hook := fun e => e.data,
    step := goal_checking_step one_step_env (fun _ => 1) (fun _ => .IN_PROGRESS) }

/-- A task with two goal states: state `1` is reached by operator 0, state `2`
by operator 0 followed by operator 1. -/
def two_goals_env : TaskEnv Unit :=
  { is_goal_state := fun state => decide (state = 1 ∨ state = 2),
    trace_path := fun _ state => if state = 1 then [some 0] else [some 0, some 1] }

/-- An engine whose `step()` never finishes the search. -/
def busy_hooks : EngineHooks Unit :=
  { init_hook := fun e => e.data,
    step := fun e => (.IN_PROGRESS, e.data) }

/-- The path-cost evaluator of a task with three operators of cost 3, 4 and 5,
before any notification: no state has a cost. -/
def g_three_costs : GEvaluator :=
  { NO_VALUE := -2,
    get_cost := fun index => [3, 4, 5].getD index 0,
    heuristic_cache := fun _ => HEntry.mk (-2) false }

/-- The evaluator `g_three_costs` after `notify_initial_state(S0)`. -/
def g_at_S0 : GEvaluator := g_three_costs.notify_initial_state 0

/-- The evaluator `g_at_S0` once the transition from `S0` to `S1` by operator 0
(cost 3) has been notified: the table holds 0 for `S0` and 3 for `S1`. -/
def g_at_S1 : GEvaluator :=
  { g_at_S0 with heuristic_cache :=
      (Function.update g_at_S0.heuristic_cache 1 (HEntry.mk 3 true)) }

/-- An evaluator table in which every evaluator returns the state number plus
five, counts its calls, and is used for everything. -/
def plus_five_evaluators : EvaluatorId → Evaluator Nat :=
  fun _ =>
    { compute_result := compute_by_reading (fun eval_context calls =>
        (EvaluationResult.fresh.set_evaluator_value (eval_context.state + 5), calls + 1)),
      is_used_for_reporting_minima := true,
      is_used_for_boosting := true,
      is_used_for_counting_evaluations := true }

/-- A world with a fresh state-only context for state 1 whose statistics
pointer is address 0. -/
def fresh_world : World Nat :=
  { ctx := { cache := [], state := 1, operator_id := OperatorID.no_operator,
             preferred := false, statistics := some 0, calculate_preferred := false },
    stats := fun _ => { evaluations := 0 },
    est := 0,
    computed := [] }

/-- The answer of `does_cache_estimates` for an evaluator that caches exactly
when its options say so. -/
def caches_as_configured : EvaluatorOptions → Bool :=
  fun evaluator_options => evaluator_options.cache_estimates

/-- The context of `fresh_world` after `get_result` for evaluator 3. -/
def evaluated_context : EvaluationContext :=
  (get_result plus_five_evaluators 3 fresh_world).2.ctx

/-- An edge context for state `S1` and operator 1. -/
def edge_context_S1 : EvaluationContext :=
  EvaluationContext.create [] 1 (some 1) false none false

/-- A context for state `S1` with the no-operator sentinel. -/
def state_context_S1 : EvaluationContext :=
  EvaluationContext.create [] 1 OperatorID.no_operator false none false

/-- Six progress calls for the two evaluators 0 and 1. -/
def progress_calls : List (EvaluatorId × Int) :=
  [(0, 10), (1, 4), (0, 7), (0, 7), (1, 9), (0, 3)]

/-- An engine that counts down: `step()` returns `FAILED` when its counter is
0 and otherwise lowers the counter and returns `IN_PROGRESS`. -/
def countdown_hooks : EngineHooks Nat :=
  { init_hook := fun e => e.data,
    step := fun e =>
      if e.data.derived = 0 then (.FAILED, e.data)
      else (.IN_PROGRESS, { e.data with derived := e.data.derived - 1 }) }

/-- The three transitions of the example of the spec: `S0` to `S1` by operator
0, `S1` to `S2` by operator 1, `S0` to `S2` by operator 2. -/
def three_transitions : List GEvaluator.Transition :=
  [{ parent_state := 0, index := 0, state := 1 },
   { parent_state := 1, index := 1, state := 2 },
   { parent_state := 0, index := 2, state := 2 }]

/-- A context for state `S2` with the no-operator sentinel. -/
def state_context_S2 : EvaluationContext :=
  EvaluationContext.create [] 2 OperatorID.no_operator false none false

/-- The four accessors, each called once. -/
def four_accessors : List Accessor :=
  [.is_evaluator_value_infinite, .get_evaluator_value_or_infinity,
   .get_preferred_operators, .get_result]

/-- A table in which evaluator 1 is a weighted evaluator of weight 3 around
evaluator 0 and is not used for counting evaluations; every other evaluator is
as in `plus_five_evaluators`. -/
def weighted_evaluators : EvaluatorId → Evaluator Nat :=
  fun e =>
    if e = 1 then
      { compute_result := WeightedEvaluator.compute_result plus_five_evaluators 0 3,
        is_used_for_reporting_minima := true,
        is_used_for_boosting := false,
        is_used_for_counting_evaluations := false }
    else plus_five_evaluators e

/-- The table `weighted_evaluators` with the weighted evaluator 1 used for
counting evaluations. -/
def counted_weighted_evaluators : EvaluatorId → Evaluator Nat :=
  fun e =>
    if e = 1 then
      { compute_result := WeightedEvaluator.compute_result plus_five_evaluators 0 3,
        is_used_for_reporting_minima := true,
        is_used_for_boosting := false,
        is_used_for_counting_evaluations := true }
    else plus_five_evaluators e

/-- A storage with one map in use, at address 0, which is empty. -/
def one_map_storage : CacheStorage :=
  { maps := fun _ => [], next := 1 }

/-- The context of `fresh_world` in storage, with its map at address 0. -/
def stored_fresh_context : StoredContext :=
  { cache := 0, state := 1, operator_id := OperatorID.no_operator, preferred := false,
    statistics := some 0, calculate_preferred := false }

/-- The stored world of `one_map_storage` before any evaluation. -/
def fresh_stored_world : StoredWorld Nat :=
  { storage := one_map_storage,
    stats := fun _ => { evaluations := 0 },
    est := 0,
    computed := [] }

/-- An engine whose `initialize()` adds 2 to its counter and whose `step()`
counts down as in `countdown_hooks`. -/
def armed_countdown_hooks : EngineHooks Nat :=
  { init_hook := fun e => { e.data with derived := e.data.derived + 2 },
    step := countdown_hooks.step }

/-- A fresh progress record. -/
def fresh_progress : SearchProgress :=
  { verbosity := .NORMAL, min_values := fun _ => none }

/-! # Theorems -/

/-! ## The evaluator cache -/

theorem lookup_cons_if (e k : EvaluatorId) (v : EvaluationResult) (rest : EvaluatorCache) :
    List.lookup e ((k, v) :: rest) = if e = k then some v else List.lookup e rest := by
  by_cases h : e = k
  · subst h; simp
  · have hb : (e == k) = false := by simpa using h
    simp [List.lookup_cons, hb, h]

theorem cache_assign_cons (k : EvaluatorId) (v : EvaluationResult) (rest : EvaluatorCache)
    (e : EvaluatorId) (r : EvaluationResult) :
    cache_assign ((k, v) :: rest) e r =
      (if k = e then (e, r) else (k, v)) :: cache_assign rest e r := rfl

theorem lookup_append_entry (c : EvaluatorCache) (e k : EvaluatorId) (v : EvaluationResult) :
    List.lookup e (c ++ [(k, v)]) =
      match List.lookup e c with
      | some r => some r
      | none => if e = k then some v else none := by
  induction c with
  | nil => simp [lookup_cons_if]
  | cons p rest ih =>
    obtain ⟨k1, v1⟩ := p
    rw [List.cons_append, lookup_cons_if, lookup_cons_if, ih]
    by_cases h1 : e = k1 <;> simp [h1]

theorem cache_at_index (c : EvaluatorCache) (e e1 : EvaluatorId) :
    cache_at (cache_index c e) e1 = cache_at c e1 := by
  unfold cache_index
  split
  · rfl
  · unfold cache_at
    rw [lookup_append_entry]
    cases hl : List.lookup e1 c with
    | some r => simp
    | none => by_cases h1 : e1 = e <;> simp [h1]

theorem lookup_index_isSome (c : EvaluatorCache) (e : EvaluatorId) :
    (List.lookup e (cache_index c e)).isSome = true := by
  unfold cache_index
  split
  · assumption
  · rw [lookup_append_entry]
    cases hl : List.lookup e c with
    | some r => simp
    | none => simp

theorem cache_index_of_initialized (c : EvaluatorCache) (e : EvaluatorId)
    (h : (cache_at c e).is_uninitialized = false) : cache_index c e = c := by
  unfold cache_index
  split
  · rfl
  · rename_i hl
    have hn : List.lookup e c = none := by
      cases hc : List.lookup e c with
      | none => rfl
      | some r => simp [hc] at hl
    simp [cache_at, hn, EvaluationResult.fresh, EvaluationResult.is_uninitialized] at h

theorem lookup_assign_self (c : EvaluatorCache) (e : EvaluatorId) (r : EvaluationResult)
    (h : (List.lookup e c).isSome = true) :
    List.lookup e (cache_assign c e r) = some r := by
  induction c with
  | nil => simp at h
  | cons p rest ih =>
    obtain ⟨k1, v1⟩ := p
    rw [cache_assign_cons]
    rw [lookup_cons_if] at h
    by_cases h1 : e = k1
    · subst h1; simp
    · have hne : ¬ k1 = e := fun hh => h1 hh.symm
      simp only [h1, if_false] at h
      simp only [hne, if_false, lookup_cons_if, h1]
      exact ih h

theorem lookup_assign_other (c : EvaluatorCache) (e e1 : EvaluatorId) (r : EvaluationResult)
    (h : e1 ≠ e) : List.lookup e1 (cache_assign c e r) = List.lookup e1 c := by
  induction c with
  | nil => rfl
  | cons p rest ih =>
    obtain ⟨k1, v1⟩ := p
    rw [cache_assign_cons]
    by_cases h1 : k1 = e
    · subst h1
      simp only [if_true, lookup_cons_if, h, if_false]
      exact ih
    · simp only [h1, if_false, lookup_cons_if, ih]

theorem cache_at_assign_self (c : EvaluatorCache) (e : EvaluatorId) (r : EvaluationResult) :
    cache_at (cache_assign (cache_index c e) e r) e = r := by
  unfold cache_at
  rw [lookup_assign_self _ _ _ (lookup_index_isSome c e)]
  rfl

theorem cache_at_assign_other (c : EvaluatorCache) (e e1 : EvaluatorId) (r : EvaluationResult)
    (h : e1 ≠ e) : cache_at (cache_assign c e r) e1 = cache_at c e1 := by
  unfold cache_at
  rw [lookup_assign_other c e e1 r h]

theorem cache_keys_assign (c : EvaluatorCache) (e : EvaluatorId) (r : EvaluationResult) :
    cache_keys (cache_assign c e r) = cache_keys c := by
  induction c with
  | nil => rfl
  | cons p rest ih =>
    obtain ⟨k, v⟩ := p
    rw [cache_assign_cons]
    have ih1 : List.map Prod.fst (cache_assign rest e r) = List.map Prod.fst rest := ih
    by_cases h : k = e
    · simp [cache_keys, h, ih1]
    · simp [cache_keys, h, ih1]

theorem not_mem_keys_of_lookup_none (c : EvaluatorCache) (e : EvaluatorId)
    (h : List.lookup e c = none) : e ∉ cache_keys c := by
  induction c with
  | nil => simp [cache_keys]
  | cons p rest ih =>
    obtain ⟨k, v⟩ := p
    rw [lookup_cons_if] at h
    by_cases hk : e = k
    · simp [hk] at h
    · simp only [hk, if_false] at h
      have := ih h
      simp only [cache_keys, List.map_cons, List.mem_cons, not_or]
      exact ⟨hk, this⟩

theorem cache_keys_index_nodup (c : EvaluatorCache) (e : EvaluatorId)
    (h : (cache_keys c).Nodup) : (cache_keys (cache_index c e)).Nodup := by
  unfold cache_index
  split
  · exact h
  · rename_i hl
    have hn : List.lookup e c = none := by
      cases hc : List.lookup e c with
      | none => rfl
      | some r => simp [hc] at hl
    have hmem := not_mem_keys_of_lookup_none c e hn
    simp only [cache_keys, List.map_append, List.map_cons, List.map_nil]
    rw [List.nodup_append]
    refine ⟨h, List.nodup_singleton e, ?_⟩
    intro a ha hb
    simp only [List.mem_singleton] at hb
    subst hb
    exact hmem ha

/-! ## `get_result` -/

theorem with_slot_of_initialized (ctx : EvaluationContext) (e : EvaluatorId)
    (h : (cache_at ctx.cache e).is_uninitialized = false) : with_slot ctx e = ctx := by
  unfold with_slot
  rw [cache_index_of_initialized _ _ h]

theorem entered_cache_at {σ : Type} (w : World σ) (e e1 : EvaluatorId) :
    cache_at (entered w e).ctx.cache e1 = cache_at w.ctx.cache e1 := by
  simp only [entered, with_slot, cache_at_index]

theorem get_result_of_initialized {σ : Type} (evs : EvaluatorId → Evaluator σ)
    (e : EvaluatorId) (w : World σ)
    (h : (cache_at w.ctx.cache e).is_uninitialized = false) :
    get_result evs e w = (cache_at w.ctx.cache e, w) := by
  unfold get_result
  simp only [with_slot_of_initialized _ _ h, h]
  rfl

theorem get_result_fst_of_uninitialized {σ : Type} (evs : EvaluatorId → Evaluator σ)
    (e : EvaluatorId) (w : World σ)
    (h : (cache_at w.ctx.cache e).is_uninitialized = true) :
    (get_result evs e w).1 = ((evs e).compute_result (entered w e)).1 := by
  unfold get_result
  simp only [with_slot, cache_at_index, h, if_true]

theorem get_result_cache_of_uninitialized {σ : Type} (evs : EvaluatorId → Evaluator σ)
    (e : EvaluatorId) (w : World σ)
    (h : (cache_at w.ctx.cache e).is_uninitialized = true) :
    (get_result evs e w).2.ctx.cache =
      cache_assign (cache_index ((evs e).compute_result (entered w e)).2.ctx.cache e) e
        (get_result evs e w).1 := by
  unfold get_result
  simp only [with_slot, cache_at_index, h, if_true]

theorem get_result_computed_of_uninitialized {σ : Type} (evs : EvaluatorId → Evaluator σ)
    (e : EvaluatorId) (w : World σ)
    (h : (cache_at w.ctx.cache e).is_uninitialized = true) :
    (get_result evs e w).2.computed = ((evs e).compute_result (entered w e)).2.computed := by
  unfold get_result
  simp only [with_slot, cache_at_index, h, if_true]

theorem get_result_stats_of_uninitialized {σ : Type} (evs : EvaluatorId → Evaluator σ)
    (e : EvaluatorId) (w : World σ)
    (h : (cache_at w.ctx.cache e).is_uninitialized = true) :
    (get_result evs e w).2.stats =
      match ((evs e).compute_result (entered w e)).2.ctx.statistics with
      | some p =>
        if (evs e).is_used_for_counting_evaluations
            && (get_result evs e w).1.get_count_evaluation then
          Function.update ((evs e).compute_result (entered w e)).2.stats p
            (((evs e).compute_result (entered w e)).2.stats p).inc_evaluations
        else ((evs e).compute_result (entered w e)).2.stats
      | none => ((evs e).compute_result (entered w e)).2.stats := by
  unfold get_result
  simp only [with_slot, cache_at_index, h, if_true]

theorem get_result_slot_of_uninitialized {σ : Type} (evs : EvaluatorId → Evaluator σ)
    (e : EvaluatorId) (w : World σ)
    (h : (cache_at w.ctx.cache e).is_uninitialized = true) :
    cache_at (get_result evs e w).2.ctx.cache e = (get_result evs e w).1 := by
  rw [get_result_cache_of_uninitialized evs e w h, cache_at_assign_self]

theorem get_result_other_slot_of_uninitialized {σ : Type} (evs : EvaluatorId → Evaluator σ)
    (e e1 : EvaluatorId) (w : World σ)
    (h : (cache_at w.ctx.cache e).is_uninitialized = true) (hne : e1 ≠ e) :
    cache_at (get_result evs e w).2.ctx.cache e1
      = cache_at ((evs e).compute_result (entered w e)).2.ctx.cache e1 := by
  rw [get_result_cache_of_uninitialized evs e w h, cache_at_assign_other _ _ _ _ hne,
    cache_at_index]

theorem get_result_times_of_initialized {σ : Type} (evs : EvaluatorId → Evaluator σ)
    (e : EvaluatorId) (n : Nat) (w : World σ)
    (h : (cache_at w.ctx.cache e).is_uninitialized = false) :
    get_result_times evs e n w = (List.replicate n (cache_at w.ctx.cache e), w) := by
  induction n with
  | zero => rfl
  | succ n ih =>
    simp only [get_result_times, get_result_of_initialized evs e w h, ih, List.replicate_succ]

theorem get_result_keeps_filled_slot {σ : Type} (evs : EvaluatorId → Evaluator σ)
    (hkeeps : keeps_filled_slots evs) (e e1 : EvaluatorId) (w : World σ)
    (h : (cache_at w.ctx.cache e1).is_uninitialized = false) :
    cache_at (get_result evs e w).2.ctx.cache e1 = cache_at w.ctx.cache e1 := by
  cases hu : (cache_at w.ctx.cache e).is_uninitialized with
  | false => rw [get_result_of_initialized evs e w hu]
  | true =>
    have hne : e1 ≠ e := by
      intro heq
      rw [heq, hu] at h
      exact Bool.noConfusion h
    have hfilled : (cache_at (entered w e).ctx.cache e1).is_uninitialized = false := by
      rw [entered_cache_at]
      exact h
    rw [get_result_other_slot_of_uninitialized evs e e1 w hu hne,
      hkeeps e e1 (entered w e) hfilled, entered_cache_at]

theorem get_result_keeps_keys_nodup {σ : Type} (evs : EvaluatorId → Evaluator σ)
    (e : EvaluatorId) (w : World σ) (h : (cache_keys w.ctx.cache).Nodup)
    (hcompute : ∀ w1 : World σ, (cache_keys w1.ctx.cache).Nodup →
      (cache_keys ((evs e).compute_result w1).2.ctx.cache).Nodup) :
    (cache_keys (get_result evs e w).2.ctx.cache).Nodup := by
  cases hu : (cache_at w.ctx.cache e).is_uninitialized with
  | false =>
    rw [get_result_of_initialized evs e w hu]
    exact h
  | true =>
    rw [get_result_cache_of_uninitialized evs e w hu, cache_keys_assign]
    apply cache_keys_index_nodup
    apply hcompute
    exact cache_keys_index_nodup _ _ h

theorem keeps_filled_slots_of_reading {σ : Type} (evs : EvaluatorId → Evaluator σ)
    (hreading : ∀ e, ∃ f, (evs e).compute_result = compute_by_reading f) :
    keeps_filled_slots evs := by
  intro e e1 w _
  obtain ⟨f, hf⟩ := hreading e
  rw [hf]
  rfl

theorem plus_five_keeps_filled_slots : keeps_filled_slots plus_five_evaluators :=
  keeps_filled_slots_of_reading plus_five_evaluators
    (fun _ => ⟨fun eval_context calls =>
      (EvaluationResult.fresh.set_evaluator_value (eval_context.state + 5), calls + 1), rfl⟩)

theorem weighted_keeps_filled_slots : keeps_filled_slots weighted_evaluators := by
  intro e e1 w h
  by_cases he : e = 1
  · subst he
    exact get_result_keeps_filled_slot plus_five_evaluators plus_five_keeps_filled_slots 0 e1 w h
  · simp only [weighted_evaluators, he, if_false]
    exact plus_five_keeps_filled_slots e e1 w h

/-- Claim C1. Let the slot of `E` be uninitialized in the context, and let the
call of `compute_result` of `E` that the first `get_result(E)` makes return an
initialized result; `compute_result` is handed the context and may itself call
`get_result` on it, as a weighted evaluator does for its inner evaluator. Then
`N > 1` calls of `get_result(E)` return that one result `N` times, and the
world after them is the world after the first call: the later calls compute
nothing and change nothing. The ghost log afterwards is the log that the one
run of `compute_result` left, which started from the old log extended by `E`;
so `E` is logged exactly once more than before unless that run logged `E`
itself. The slot of `E` holds the result. A call of `get_result` for an
evaluator whose slot is filled returns the slot and leaves the world as it is;
a call that computes assigns to the slot of its own evaluator only, every other
slot is as `compute_result` left it; and when `compute_result` of every
evaluator leaves filled slots as they are, so does every call of
`get_result`. -/
theorem get_result_computes_at_most_once {σ : Type} (evs : EvaluatorId → Evaluator σ)
    (E : EvaluatorId) (w : World σ) (n : Nat) (hn : 1 < n)
    (hfresh : (cache_at w.ctx.cache E).is_uninitialized = true)
    (hvalid : ((evs E).compute_result (entered w E)).1.is_uninitialized = false) :
    (get_result_times evs E n w).1 =
        List.replicate n ((evs E).compute_result (entered w E)).1
      ∧ (get_result_times evs E n w).2 = (get_result evs E w).2
      ∧ (get_result_times evs E n w).2.computed
          = ((evs E).compute_result (entered w E)).2.computed
      ∧ (entered w E).computed = w.computed ++ [E]
      ∧ (((evs E).compute_result (entered w E)).2.computed.count E
            = (entered w E).computed.count E →
          (get_result_times evs E n w).2.computed.count E = w.computed.count E + 1)
      ∧ cache_at (get_result_times evs E n w).2.ctx.cache E
          = ((evs E).compute_result (entered w E)).1
      ∧ (∀ (w1 : World σ) (e : EvaluatorId),
          (cache_at w1.ctx.cache e).is_uninitialized = false →
            get_result evs e w1 = (cache_at w1.ctx.cache e, w1))
      ∧ (∀ (w1 : World σ) (e e1 : EvaluatorId), e1 ≠ e →
          (cache_at w1.ctx.cache e).is_uninitialized = true →
            cache_at (get_result evs e w1).2.ctx.cache e1
              = cache_at ((evs e).compute_result (entered w1 e)).2.ctx.cache e1)
      ∧ (keeps_filled_slots evs →
          ∀ (w1 : World σ) (e e1 : EvaluatorId),
            (cache_at w1.ctx.cache e1).is_uninitialized = false →
              cache_at (get_result evs e w1).2.ctx.cache e1 = cache_at w1.ctx.cache e1) := by
  obtain ⟨m, rfl⟩ : ∃ m, n = m + 1 := ⟨n - 1, by omega⟩
  have hfst := get_result_fst_of_uninitialized evs E w hfresh
  have hslot := get_result_slot_of_uninitialized evs E w hfresh
  have hfilled : (cache_at (get_result evs E w).2.ctx.cache E).is_uninitialized = false := by
    rw [hslot, hfst]
    exact hvalid
  have hrest := get_result_times_of_initialized evs E m (get_result evs E w).2 hfilled
  have hlog := get_result_computed_of_uninitialized evs E w hfresh
  have hend : (get_result_times evs E (m + 1) w).2 = (get_result evs E w).2 := by
    simp only [get_result_times, hrest]
  refine ⟨?_, hend, ?_, ?_, ?_, ?_, ?_, ?_, ?_⟩
  · simp only [get_result_times, hrest, hslot, List.replicate_succ, hfst]
  · rw [hend, hlog]
  · simp [entered]
  · intro hquiet
    rw [hend, hlog, hquiet]
    simp [entered]
  · rw [hend, hslot, hfst]
  · intro w1 e h
    exact get_result_of_initialized evs e w1 h
  · intro w1 e e1 hne h
    exact get_result_other_slot_of_uninitialized evs e e1 w1 h hne
  · intro hkeeps w1 e e1 h
    exact get_result_keeps_filled_slot evs hkeeps e e1 w1 h

/-- Claim C1 at a concrete input: four calls for the weighted evaluator 1, of
weight 3 around evaluator 0, on a fresh context of state 1. The one run of
`compute_result` of evaluator 1 calls `get_result` for evaluator 0, so the log
is 1, 0; a later call for evaluator 3 leaves the slot of evaluator 1 as it
is. -/
theorem get_result_computes_at_most_once_witness :
    1 < 4
      ∧ (cache_at fresh_world.ctx.cache 1).is_uninitialized = true
      ∧ ((weighted_evaluators 1).compute_result (entered fresh_world 1)).1.is_uninitialized
          = false
      ∧ (get_result_times weighted_evaluators 1 4 fresh_world).1 =
          List.replicate 4 (EvaluationResult.fresh.set_evaluator_value 18)
      ∧ (get_result_times weighted_evaluators 1 4 fresh_world).2.computed = [1, 0]
      ∧ (get_result_times weighted_evaluators 1 4 fresh_world).2.computed.count 1 = 1
      ∧ cache_at (get_result weighted_evaluators 3
            (get_result weighted_evaluators 1 fresh_world).2).2.ctx.cache 1
          = cache_at (get_result weighted_evaluators 1 fresh_world).2.ctx.cache 1 :=
  ⟨by decide, rfl, rfl,
    (get_result_computes_at_most_once weighted_evaluators 1 fresh_world 4
      (by decide) rfl rfl).1,
    (get_result_computes_at_most_once weighted_evaluators 1 fresh_world 4
      (by decide) rfl rfl).2.2.1,
    (get_result_computes_at_most_once weighted_evaluators 1 fresh_world 4
      (by decide) rfl rfl).2.2.2.2.1 rfl,
    (get_result_computes_at_most_once weighted_evaluators 1 fresh_world 4
      (by decide) rfl rfl).2.2.2.2.2.2.2.2 weighted_keeps_filled_slots
      (get_result weighted_evaluators 1 fresh_world).2 3 1 rfl⟩

/-- Claim C2 fails for an evaluator whose `compute_result` calls `get_result`
on the context it is handed. Evaluator 1 is a weighted evaluator around
evaluator 0 and is not used for counting evaluations; its slot is uninitialized
and a statistics object is attached at address 0. The call `get_result(1)`
raises the counter of that object from 0 to 1, through the nested call
`get_result(0)` for the inner evaluator, which is used for counting. So the
counter rises by exactly one although the evaluator of the call is not used for
counting evaluations. With the same weighted evaluator used for counting
evaluations, all four conditions of the claim hold and the counter rises by
two. -/
theorem uncounted_wrapper_raises_counter :
    (cache_at fresh_world.ctx.cache 1).is_uninitialized = true
      ∧ fresh_world.ctx.statistics = some 0
      ∧ (weighted_evaluators 1).is_used_for_counting_evaluations = false
      ∧ (fresh_world.stats 0).evaluations = 0
      ∧ ((get_result weighted_evaluators 1 fresh_world).2.stats 0).evaluations = 1
      ∧ (counted_weighted_evaluators 1).is_used_for_counting_evaluations = true
      ∧ (get_result counted_weighted_evaluators 1 fresh_world).1.get_count_evaluation = true
      ∧ ((get_result counted_weighted_evaluators 1 fresh_world).2.stats 0).evaluations = 2
      ∧ ¬ (∀ (evs : EvaluatorId → Evaluator Nat) (E : EvaluatorId) (w : World Nat) (p : Nat),
          (((get_result evs E w).2.stats p).evaluations = (w.stats p).evaluations + 1 ↔
            ((cache_at w.ctx.cache E).is_uninitialized = true ∧ w.ctx.statistics = some p
              ∧ (evs E).is_used_for_counting_evaluations = true
              ∧ (get_result evs E w).1.get_count_evaluation = true))) := by
  refine ⟨rfl, rfl, rfl, rfl, rfl, rfl, rfl, rfl, ?_⟩
  intro h
  have h1 := (h weighted_evaluators 1 fresh_world 0).1 rfl
  exact Bool.noConfusion h1.2.2.1

/-- Claim C2, amended. On a cache hit `get_result(E)` leaves every statistics
object as it is. On a miss, the statistics object at address `p` after the call
is the object as the run of `compute_result` of `E` left it, with its counter
raised by exactly one if and only if the context's statistics pointer is `p`,
`E` is used for counting evaluations and the result the call returns (the
freshly computed one) has its count-evaluation flag set; in every other case
the object is as `compute_result` left it. When the run of `compute_result`
leaves the statistics objects and the statistics pointer as they were, the call
raises the counter at `p` by exactly one, counted from before the call, if and
only if the slot of `E` was uninitialized, the statistics pointer is `p`, `E`
is used for counting evaluations and the result has its count-evaluation flag
set, and in every other case it leaves the object at `p` as it was. -/
theorem get_result_counts_evaluation {σ : Type} (evs : EvaluatorId → Evaluator σ)
    (E : EvaluatorId) (w : World σ) (p : Nat) :
    ((cache_at w.ctx.cache E).is_uninitialized = false →
        (get_result evs E w).2.stats = w.stats)
      ∧ ((cache_at w.ctx.cache E).is_uninitialized = true →
          (((get_result evs E w).2.stats p).evaluations
              = (((evs E).compute_result (entered w E)).2.stats p).evaluations + 1 ↔
            (((evs E).compute_result (entered w E)).2.ctx.statistics = some p
              ∧ (evs E).is_used_for_counting_evaluations = true
              ∧ (get_result evs E w).1.get_count_evaluation = true))
          ∧ ((((evs E).compute_result (entered w E)).2.ctx.statistics = some p
              ∧ (evs E).is_used_for_counting_evaluations = true
              ∧ (get_result evs E w).1.get_count_evaluation = true)
            ∨ (get_result evs E w).2.stats p
                = ((evs E).compute_result (entered w E)).2.stats p))
      ∧ (((evs E).compute_result (entered w E)).2.stats = w.stats →
          ((evs E).compute_result (entered w E)).2.ctx.statistics = w.ctx.statistics →
          (((get_result evs E w).2.stats p).evaluations = (w.stats p).evaluations + 1 ↔
            ((cache_at w.ctx.cache E).is_uninitialized = true ∧ w.ctx.statistics = some p
              ∧ (evs E).is_used_for_counting_evaluations = true
              ∧ (get_result evs E w).1.get_count_evaluation = true))
          ∧ (((cache_at w.ctx.cache E).is_uninitialized = true ∧ w.ctx.statistics = some p
              ∧ (evs E).is_used_for_counting_evaluations = true
              ∧ (get_result evs E w).1.get_count_evaluation = true)
            ∨ (get_result evs E w).2.stats p = w.stats p)) := by
  have hmiss : (cache_at w.ctx.cache E).is_uninitialized = true →
      (((get_result evs E w).2.stats p).evaluations
          = (((evs E).compute_result (entered w E)).2.stats p).evaluations + 1 ↔
        (((evs E).compute_result (entered w E)).2.ctx.statistics = some p
          ∧ (evs E).is_used_for_counting_evaluations = true
          ∧ (get_result evs E w).1.get_count_evaluation = true))
      ∧ ((((evs E).compute_result (entered w E)).2.ctx.statistics = some p
          ∧ (evs E).is_used_for_counting_evaluations = true
          ∧ (get_result evs E w).1.get_count_evaluation = true)
        ∨ (get_result evs E w).2.stats p
            = ((evs E).compute_result (entered w E)).2.stats p) := by
    intro hu
    have hs := get_result_stats_of_uninitialized evs E w hu
    cases hst : ((evs E).compute_result (entered w E)).2.ctx.statistics with
    | none =>
      rw [hst] at hs
      simp [hs]
    | some q =>
      rw [hst] at hs
      cases hc : (evs E).is_used_for_counting_evaluations <;>
        cases hr : (get_result evs E w).1.get_count_evaluation <;>
        simp only [hc, hr, Bool.and_true, Bool.and_false, Bool.false_and, if_true,
          if_false] at hs <;>
        by_cases hq : p = q <;>
        simp [hs, hq, Function.update, SearchStatistics.inc_evaluations]
      intro h
      exact hq h.symm
  refine ⟨?_, hmiss, ?_⟩
  · intro hu
    rw [get_result_of_initialized evs E w hu]
  · intro hstats hptr
    cases hu : (cache_at w.ctx.cache E).is_uninitialized with
    | false =>
      rw [get_result_of_initialized evs E w hu]
      simp
    | true =>
      have h := hmiss hu
      rw [hstats, hptr] at h
      simpa using h

/-! ## The path-cost evaluator -/

theorem wrap_int_of_in_range (x : Int) (hlo : -2147483648 ≤ x) (hhi : x ≤ INT_MAX) :
    wrap_int x = x := by
  unfold wrap_int
  unfold INT_MAX at hhi
  omega

theorem int_add_of_in_range (a b : Int) (hlo : -2147483648 ≤ a + b) (hhi : a + b ≤ INT_MAX) :
    int_add a b = a + b :=
  wrap_int_of_in_range (a + b) hlo hhi

theorem notify_state_transition_spec (g : GEvaluator) (parent_state state : State)
    (index : Nat)
    (hparent : 0 ≤ (g.heuristic_cache parent_state).h)
    (hold : (g.heuristic_cache state).h = g.NO_VALUE ∨ 0 ≤ (g.heuristic_cache state).h) :
    ∃ g1, g.notify_state_transition parent_state (some index) state = some g1
      ∧ g1.heuristic_cache state =
          (if (g.heuristic_cache state).h = g.NO_VALUE
              ∨ int_add (g.heuristic_cache parent_state).h (g.get_cost index)
                < (g.heuristic_cache state).h then
            HEntry.mk (int_add (g.heuristic_cache parent_state).h (g.get_cost index)) true
          else g.heuristic_cache state)
      ∧ (g1.heuristic_cache state).h =
          (if (g.heuristic_cache state).h = g.NO_VALUE then
            int_add (g.heuristic_cache parent_state).h (g.get_cost index)
          else min (g.heuristic_cache state).h
            (int_add (g.heuristic_cache parent_state).h (g.get_cost index)))
      ∧ (∀ s, s ≠ state → g1.heuristic_cache s = g.heuristic_cache s)
      ∧ g1.NO_VALUE = g.NO_VALUE ∧ g1.get_cost = g.get_cost
      ∧ (-2147483648 ≤ (g.heuristic_cache parent_state).h + g.get_cost index
          ∧ (g.heuristic_cache parent_state).h + g.get_cost index ≤ INT_MAX →
        int_add (g.heuristic_cache parent_state).h (g.get_cost index)
          = (g.heuristic_cache parent_state).h + g.get_cost index) := by
  have hp : (g.heuristic_cache parent_state).h ≥ 0 := hparent
  have ho : (g.heuristic_cache state).h = g.NO_VALUE ∨ (g.heuristic_cache state).h ≥ 0 := hold
  by_cases hup : (g.heuristic_cache state).h = g.NO_VALUE
      ∨ int_add (g.heuristic_cache parent_state).h (g.get_cost index)
        < (g.heuristic_cache state).h
  · have hcall : g.notify_state_transition parent_state (some index) state =
        some { g with heuristic_cache :=
          (Function.update g.heuristic_cache state
            (HEntry.mk (int_add (g.heuristic_cache parent_state).h (g.get_cost index)) true)) } := by
      simp only [GEvaluator.notify_state_transition, hp, ho, hup, if_true]
    refine ⟨_, hcall, ?_, ?_, ?_, rfl, rfl, fun hr => int_add_of_in_range _ _ hr.1 hr.2⟩
    · simp [hup]
    · by_cases hno : (g.heuristic_cache state).h = g.NO_VALUE
      · simp [hno]
      · have hlt := hup.resolve_left hno
        simp only [Function.update_same, hno, if_false]
        exact (min_eq_right (le_of_lt hlt)).symm
    · intro s hs
      simp [Function.update, hs]
  · have hcall : g.notify_state_transition parent_state (some index) state = some g := by
      simp only [GEvaluator.notify_state_transition, hp, ho, hup, if_true, if_false]
    refine ⟨g, hcall, ?_, ?_, fun _ _ => rfl, rfl, rfl,
      fun hr => int_add_of_in_range _ _ hr.1 hr.2⟩
    · simp [hup]
    · have hno : ¬ (g.heuristic_cache state).h = g.NO_VALUE := fun h => hup (Or.inl h)
      have hge : ¬ int_add (g.heuristic_cache parent_state).h (g.get_cost index)
          < (g.heuristic_cache state).h := fun h => hup (Or.inr h)
      simp only [hno, if_false]
      exact (min_eq_left (not_lt.mp hge)).symm

theorem GEvaluator.ext_fields (a b : GEvaluator) (h1 : a.NO_VALUE = b.NO_VALUE)
    (h2 : a.get_cost = b.get_cost) (h3 : ∀ s, a.heuristic_cache s = b.heuristic_cache s) :
    a = b := by
  cases a; cases b
  simp only [GEvaluator.mk.injEq]
  exact ⟨h1, h2, funext h3⟩

theorem relax_twice (g : GEvaluator) (state p1 p2 : State) (i1 i2 : Nat)
    (hno : g.NO_VALUE < 0) (hchild : (g.heuristic_cache state).h = g.NO_VALUE)
    (hp1 : 0 ≤ (g.heuristic_cache p1).h) (hp2 : 0 ≤ (g.heuristic_cache p2).h)
    (hc1 : 0 ≤ g.get_cost i1) (hc2 : 0 ≤ g.get_cost i2)
    (hr1 : (g.heuristic_cache p1).h + g.get_cost i1 ≤ INT_MAX)
    (hr2 : (g.heuristic_cache p2).h + g.get_cost i2 ≤ INT_MAX) :
    (g.notify_state_transition p1 (some i1) state).bind
        (fun g1 => g1.notify_state_transition p2 (some i2) state) =
      some { g with heuristic_cache :=
        (Function.update g.heuristic_cache state
          (HEntry.mk (min ((g.heuristic_cache p1).h + g.get_cost i1)
            ((g.heuristic_cache p2).h + g.get_cost i2)) true)) } := by
  have hne2 : p2 ≠ state := by
    intro h; rw [h, hchild] at hp2; omega
  have ha1 : int_add (g.heuristic_cache p1).h (g.get_cost i1)
      = (g.heuristic_cache p1).h + g.get_cost i1 :=
    int_add_of_in_range _ _ (by omega) hr1
  have ha2 : int_add (g.heuristic_cache p2).h (g.get_cost i2)
      = (g.heuristic_cache p2).h + g.get_cost i2 :=
    int_add_of_in_range _ _ (by omega) hr2
  obtain ⟨g1, hcall1, hent1, -, hframe1, hnv1, hcost1, -⟩ :=
    notify_state_transition_spec g p1 state i1 hp1 (Or.inl hchild)
  rw [hcall1, Option.some_bind]
  simp only [hchild, true_or, if_true, ha1] at hent1
  have hp2g1 : (g1.heuristic_cache p2).h = (g.heuristic_cache p2).h := by
    rw [hframe1 p2 hne2]
  have hold1 : (g1.heuristic_cache state).h = (g.heuristic_cache p1).h + g.get_cost i1 := by
    rw [hent1]
  obtain ⟨g2, hcall2, hent2, -, hframe2, hnv2, hcost2, -⟩ :=
    notify_state_transition_spec g1 p2 state i2 (by rw [hp2g1]; exact hp2)
      (Or.inr (by rw [hold1]; omega))
  rw [hcall2]
  congr 1
  apply GEvaluator.ext_fields
  · rw [hnv2, hnv1]
  · rw [hcost2, hcost1]
  · intro s
    by_cases hs : s = state
    · subst hs
      rw [hent2, hent1, hp2g1, hcost1, ha2, hnv1]
      simp only [Function.update_same]
      have hne : ¬ ((g.heuristic_cache p1).h + g.get_cost i1 = g.NO_VALUE) := by omega
      by_cases hlt : (g.heuristic_cache p2).h + g.get_cost i2
          < (g.heuristic_cache p1).h + g.get_cost i1
      · simp only [hne, hlt, false_or, if_true, min_eq_right (le_of_lt hlt)]
      · simp only [hne, hlt, false_or, if_false, min_eq_left (not_lt.mp hlt)]
    · rw [hframe2 s hs, hframe1 s hs]
      simp [Function.update, hs]

theorem call_keeps_dirty (g g1 : GEvaluator) (state : State) (c : GEvaluator.Call)
    (hdirty : (g.heuristic_cache state).dirty = true)
    (hc : GEvaluator.Call.is_state_query state c = false)
    (hcall : g.call c = some g1) : (g1.heuristic_cache state).dirty = true := by
  cases c with
  | notify_initial_state s =>
    simp only [GEvaluator.call, Option.some.injEq] at hcall
    subst hcall
    by_cases hs : state = s
    · subst hs; simp [GEvaluator.notify_initial_state]
    · simp [GEvaluator.notify_initial_state, Function.update, hs, hdirty]
  | notify_state_transition p op s =>
    simp only [GEvaluator.call] at hcall
    cases op with
    | none => simp [GEvaluator.notify_state_transition] at hcall
    | some index =>
      simp only [GEvaluator.notify_state_transition] at hcall
      split_ifs at hcall
      · simp only [Option.some.injEq] at hcall
        subst hcall
        by_cases hs : state = s
        · subst hs; simp
        · simp [Function.update, hs, hdirty]
      · simp only [Option.some.injEq] at hcall
        subst hcall
        exact hdirty
  | compute_result ctx =>
    simp only [GEvaluator.call, Option.some.injEq] at hcall
    subst hcall
    simp only [GEvaluator.Call.is_state_query, OperatorID.no_operator, decide_eq_false_iff_not,
      not_and] at hc
    cases hop : ctx.operator_id with
    | some index => simp [GEvaluator.compute_result, EdgeEvaluationContext.get_operator_id, hop, hdirty]
    | none =>
      have hs : ¬ ctx.state = state := hc hop
      have hs1 : ¬ state = ctx.state := fun h => hs h.symm
      simp [GEvaluator.compute_result, EdgeEvaluationContext.get_operator_id, hop, get_state,
        Function.update, hs1, hdirty]

theorem calls_keep_dirty (state : State) (cs : List GEvaluator.Call) :
    ∀ (g g1 : GEvaluator), (g.heuristic_cache state).dirty = true →
      (∀ c ∈ cs, GEvaluator.Call.is_state_query state c = false) →
      g.calls cs = some g1 → (g1.heuristic_cache state).dirty = true := by
  induction cs with
  | nil =>
    intro g g1 hd _ hrun
    simp only [GEvaluator.calls, Option.some.injEq] at hrun
    subst hrun
    exact hd
  | cons c rest ih =>
    intro g g1 hd hq hrun
    simp only [GEvaluator.calls] at hrun
    cases hcall : g.call c with
    | none => simp [hcall] at hrun
    | some g2 =>
      rw [hcall, Option.some_bind] at hrun
      exact ih g2 g1
        (call_keeps_dirty g g2 state c hd (hq c (List.mem_cons_self _ _)) hcall)
        (fun c1 hc1 => hq c1 (List.mem_cons_of_mem _ hc1)) hrun

/-- Claim C3. Let the parent's cached cost be non-negative and the child's
cached cost be `NO_VALUE` or non-negative (the two assertions of the method),
and let the candidate be the int sum of the parent's cached cost and the cost
of the operator. Then `notify_state_transition` returns, and: if the child has
no cached cost or the candidate is strictly smaller than it, the child's entry
becomes the candidate with the dirty flag set; otherwise (ties included) the
child's entry, cost and dirty flag, is unchanged. In both cases the child's
cost afterwards is the candidate when there was none before and the minimum of
the old cost and the candidate otherwise. The entries of all other states and
the parameters of the evaluator are unchanged, and the int sum is the
mathematical sum whenever that lies in the int range. -/
theorem notify_state_transition_relaxes (g : GEvaluator) (parent_state state : State)
    (index : Nat)
    (hparent : 0 ≤ (g.heuristic_cache parent_state).h)
    (hold : (g.heuristic_cache state).h = g.NO_VALUE ∨ 0 ≤ (g.heuristic_cache state).h) :
    ∃ g1, g.notify_state_transition parent_state (some index) state = some g1
      ∧ g1.heuristic_cache state =
          (if (g.heuristic_cache state).h = g.NO_VALUE
              ∨ int_add (g.heuristic_cache parent_state).h (g.get_cost index)
                < (g.heuristic_cache state).h then
            HEntry.mk (int_add (g.heuristic_cache parent_state).h (g.get_cost index)) true
          else g.heuristic_cache state)
      ∧ (g1.heuristic_cache state).h =
          (if (g.heuristic_cache state).h = g.NO_VALUE then
            int_add (g.heuristic_cache parent_state).h (g.get_cost index)
          else min (g.heuristic_cache state).h
            (int_add (g.heuristic_cache parent_state).h (g.get_cost index)))
      ∧ (∀ s, s ≠ state → g1.heuristic_cache s = g.heuristic_cache s)
      ∧ g1.NO_VALUE = g.NO_VALUE ∧ g1.get_cost = g.get_cost
      ∧ (-2147483648 ≤ (g.heuristic_cache parent_state).h + g.get_cost index
          ∧ (g.heuristic_cache parent_state).h + g.get_cost index ≤ INT_MAX →
        int_add (g.heuristic_cache parent_state).h (g.get_cost index)
          = (g.heuristic_cache parent_state).h + g.get_cost index) :=
  notify_state_transition_spec g parent_state state index hparent hold

/-- Claim C3 at a concrete input: the transition from `S1` (cost 3) to `S2` by
operator 1 (cost 4). -/
theorem notify_state_transition_relaxes_witness :
    0 ≤ (g_at_S1.heuristic_cache 1).h
      ∧ ((g_at_S1.heuristic_cache 2).h = g_at_S1.NO_VALUE ∨ 0 ≤ (g_at_S1.heuristic_cache 2).h)
      ∧ ∃ g1, g_at_S1.notify_state_transition 1 (some 1) 2 = some g1
          ∧ g1.heuristic_cache 2 = HEntry.mk 7 true := by
  refine ⟨by decide, Or.inl rfl, ?_⟩
  obtain ⟨g1, hcall, hentry, -⟩ :=
    notify_state_transition_relaxes g_at_S1 1 2 1 (by decide) (Or.inl rfl)
  exact ⟨g1, hcall, hentry.trans (by decide)⟩

/-- Claim C4. Let `NO_VALUE` be negative, let `state` have no cached cost,
and let two transitions into it come from parents with non-negative cached
costs, by operators of non-negative cost, with sums that do not exceed the
largest int. Then the two `notify_state_transition` calls succeed in either
order and lead to the same evaluator, in which the cached cost of `state` is
the smaller of the two candidates (parent cost plus operator cost) and its
dirty flag is set. The dirty flag of `state` stays set through every further
sequence of calls that contains no no-operator query on `state`, and a
no-operator query on `state` clears it and returns that smaller cost. -/
theorem path_cost_relaxation_order_independent (g : GEvaluator) (state p1 p2 : State)
    (i1 i2 : Nat)
    (hno : g.NO_VALUE < 0) (hchild : (g.heuristic_cache state).h = g.NO_VALUE)
    (hp1 : 0 ≤ (g.heuristic_cache p1).h) (hp2 : 0 ≤ (g.heuristic_cache p2).h)
    (hc1 : 0 ≤ g.get_cost i1) (hc2 : 0 ≤ g.get_cost i2)
    (hr1 : (g.heuristic_cache p1).h + g.get_cost i1 ≤ INT_MAX)
    (hr2 : (g.heuristic_cache p2).h + g.get_cost i2 ≤ INT_MAX) :
    ∃ g2,
      (g.notify_state_transition p1 (some i1) state).bind
          (fun g1 => g1.notify_state_transition p2 (some i2) state) = some g2
      ∧ (g.notify_state_transition p2 (some i2) state).bind
          (fun g1 => g1.notify_state_transition p1 (some i1) state) = some g2
      ∧ g2.heuristic_cache state =
          HEntry.mk (min ((g.heuristic_cache p1).h + g.get_cost i1)
            ((g.heuristic_cache p2).h + g.get_cost i2)) true
      ∧ (∀ (cs : List GEvaluator.Call) (g3 : GEvaluator),
          (∀ c ∈ cs, GEvaluator.Call.is_state_query state c = false) →
          g2.calls cs = some g3 → (g3.heuristic_cache state).dirty = true)
      ∧ (∀ (eval_context : EvaluationContext),
          eval_context.operator_id = OperatorID.no_operator →
          eval_context.state = state →
          ((g2.compute_result eval_context).2.heuristic_cache state).dirty = false
            ∧ (g2.compute_result eval_context).1.get_evaluator_value =
              min ((g.heuristic_cache p1).h + g.get_cost i1)
                ((g.heuristic_cache p2).h + g.get_cost i2)) := by
  refine ⟨_, relax_twice g state p1 p2 i1 i2 hno hchild hp1 hp2 hc1 hc2 hr1 hr2, ?_, ?_, ?_, ?_⟩
  · rw [relax_twice g state p2 p1 i2 i1 hno hchild hp2 hp1 hc2 hc1 hr2 hr1, min_comm]
  · simp
  · intro cs g3 hq hrun
    exact calls_keep_dirty state cs _ g3 (by simp) hq hrun
  · intro ctx hop hs
    simp only [OperatorID.no_operator] at hop
    subst hs
    simp [GEvaluator.compute_result, EdgeEvaluationContext.get_operator_id, hop, get_state,
      EvaluationResult.get_evaluator_value, EvaluationResult.set_evaluator_value]

/-- Claim C4 at the input of the spec: `S2` is reached from `S1` (cost 3) by
an operator of cost 4 and from `S0` (cost 0) by an operator of cost 5. -/
theorem path_cost_relaxation_order_independent_witness :
    g_at_S1.NO_VALUE < 0
      ∧ (g_at_S1.heuristic_cache 2).h = g_at_S1.NO_VALUE
      ∧ (g_at_S1.heuristic_cache 1).h = 3 ∧ (g_at_S1.heuristic_cache 0).h = 0
      ∧ g_at_S1.get_cost 1 = 4 ∧ g_at_S1.get_cost 2 = 5
      ∧ ∃ g2,
          (g_at_S1.notify_state_transition 1 (some 1) 2).bind
              (fun g1 => g1.notify_state_transition 0 (some 2) 2) = some g2
          ∧ (g_at_S1.notify_state_transition 0 (some 2) 2).bind
              (fun g1 => g1.notify_state_transition 1 (some 1) 2) = some g2
          ∧ g2.heuristic_cache 2 = HEntry.mk 5 true := by
  refine ⟨by decide, rfl, rfl, rfl, rfl, rfl, ?_⟩
  obtain ⟨g2, hfirst, hsecond, hentry, -⟩ :=
    path_cost_relaxation_order_independent g_at_S1 2 1 0 1 2 (by decide) rfl
      (by decide) (by decide) (by decide) (by decide) (by decide) (by decide)
  exact ⟨g2, hfirst, hsecond, hentry.trans (by decide)⟩

/-! ## Search progress -/

theorem is_new_minimum_after (sp : SearchProgress) (e : EvaluatorId) (v x : Int) :
    is_new_minimum (process_evaluator_value sp e v).2 e x =
      (is_new_minimum sp e x && decide (x < v)) := by
  unfold process_evaluator_value is_new_minimum
  cases h : sp.min_values e with
  | none => simp
  | some m =>
    by_cases hlt : v < m
    · simp only [hlt, if_true, Function.update_same]
      by_cases hx : x < v
      · have : x < m := lt_trans hx hlt
        simp [hx, this]
      · simp [hx]
    · simp only [hlt, if_false, h]
      by_cases hx : x < m
      · have : x < v := lt_of_lt_of_le hx (not_lt.mp hlt)
        simp [hx, this]
      · simp [hx]

theorem process_evaluator_value_fst (sp : SearchProgress) (e : EvaluatorId) (v : Int) :
    (process_evaluator_value sp e v).1 = is_new_minimum sp e v := by
  unfold process_evaluator_value is_new_minimum
  cases h : sp.min_values e with
  | none => rfl
  | some m => by_cases hlt : v < m <;> simp [hlt]

theorem process_values_length (e : EvaluatorId) (vs : List Int) :
    ∀ sp : SearchProgress, (process_values sp e vs).1.length = vs.length := by
  induction vs with
  | nil => intro sp; rfl
  | cons v rest ih => intro sp; simp [process_values, ih]

theorem process_values_flag (e : EvaluatorId) (vs : List Int) :
    ∀ (sp : SearchProgress) (i : Nat), i < vs.length →
      ((process_values sp e vs).1.getD i false = true ↔
        (is_new_minimum sp e (vs.getD i 0) = true ∧ ∀ v ∈ vs.take i, vs.getD i 0 < v)) := by
  induction vs with
  | nil => intro sp i hi; simp at hi
  | cons v rest ih =>
    intro sp i hi
    cases i with
    | zero =>
      simp [process_values, process_evaluator_value_fst]
    | succ j =>
      have hj : j < rest.length := by simpa using hi
      have := ih (process_evaluator_value sp e v).2 j hj
      simp only [process_values, List.getD_cons_succ, List.take_succ_cons, List.mem_cons,
        forall_eq_or_imp]
      rw [this, is_new_minimum_after]
      simp only [Bool.and_eq_true, decide_eq_true_eq]
      tauto

theorem process_evaluator_value_other (sp : SearchProgress) (e e1 : EvaluatorId) (v : Int)
    (h : e1 ≠ e) :
    (process_evaluator_value sp e v).2.min_values e1 = sp.min_values e1 := by
  unfold process_evaluator_value
  cases hm : sp.min_values e with
  | none => simp [Function.update, h]
  | some m => by_cases hlt : v < m <;> simp [hlt, Function.update, h]

theorem callback_min_values_other {σ : Type} (evs : EvaluatorId → Evaluator σ)
    (acc : ProgressStep) (entry : EvaluatorId × EvaluationResult) (e1 : EvaluatorId)
    (h : e1 ≠ entry.1) :
    (check_progress_callback evs acc entry).progress.min_values e1
      = acc.progress.min_values e1 := by
  unfold check_progress_callback
  simp only
  split_ifs <;> first | rfl | exact process_evaluator_value_other _ _ _ _ h

theorem callback_boost {σ : Type} (evs : EvaluatorId → Evaluator σ)
    (acc : ProgressStep) (entry : EvaluatorId × EvaluationResult) :
    (check_progress_callback evs acc entry).boost =
      (acc.boost || ((evs entry.1).is_used_for_boosting
        && is_new_minimum acc.progress entry.1 entry.2.get_evaluator_value)) := by
  unfold check_progress_callback
  simp only [process_evaluator_value_fst]
  cases hb : (evs entry.1).is_used_for_boosting <;>
    cases hr : (evs entry.1).is_used_for_reporting_minima <;>
    cases hn : is_new_minimum acc.progress entry.1 entry.2.get_evaluator_value <;>
    simp

theorem is_new_minimum_congr (sp sp1 : SearchProgress) (e : EvaluatorId) (v : Int)
    (h : sp1.min_values e = sp.min_values e) :
    is_new_minimum sp1 e v = is_new_minimum sp e v := by
  unfold is_new_minimum
  rw [h]

theorem foldl_callback_boost {σ : Type} (evs : EvaluatorId → Evaluator σ)
    (l : EvaluatorCache) :
    ∀ acc : ProgressStep, (cache_keys l).Nodup →
      ((l.foldl (check_progress_callback evs) acc).boost = true ↔
        (acc.boost = true ∨ ∃ entry ∈ l, (evs entry.1).is_used_for_boosting = true
          ∧ is_new_minimum acc.progress entry.1 entry.2.get_evaluator_value = true)) := by
  induction l with
  | nil => intro acc _; simp
  | cons entry rest ih =>
    intro acc hnd
    have hnd1 : entry.1 ∉ cache_keys rest ∧ (cache_keys rest).Nodup := by
      simpa [cache_keys] using hnd
    rw [List.foldl_cons, ih _ hnd1.2, callback_boost]
    have hsame : ∀ en ∈ rest,
        is_new_minimum (check_progress_callback evs acc entry).progress en.1
            en.2.get_evaluator_value
          = is_new_minimum acc.progress en.1 en.2.get_evaluator_value := by
      intro en hen
      apply is_new_minimum_congr
      apply callback_min_values_other
      intro heq
      apply hnd1.1
      rw [← heq]
      exact List.mem_map_of_mem Prod.fst hen
    simp only [Bool.or_eq_true, Bool.and_eq_true, List.mem_cons, exists_eq_or_imp]
    constructor
    · rintro (h | ⟨en, hen, hb, hn⟩)
      · cases h with
        | inl h => exact Or.inl h
        | inr h => exact Or.inr (Or.inl h)
      · exact Or.inr (Or.inr ⟨en, hen, hb, by rw [← hsame en hen]; exact hn⟩)
    · rintro (h | h | ⟨en, hen, hb, hn⟩)
      · exact Or.inl (Or.inl h)
      · exact Or.inl (Or.inr h)
      · exact Or.inr ⟨en, hen, hb, by rw [hsame en hen]; exact hn⟩

/-- Claim C5. When the values of a list are fed to `process_evaluator_value`
for an evaluator the record has not seen, there is one answer per value, and
the answer at position `i` (counted from 0) is true if and only if `i` is the
first position, the first sighting, or the value at `i` is strictly smaller
than every value before it. For the values 10, 7, 7, 9, 3 fed to a fresh record
the answers are true, true, false, false, true. -/
theorem process_evaluator_value_flags_new_minima (sp : SearchProgress) (e : EvaluatorId)
    (vs : List Int) (i : Nat) (hunseen : sp.min_values e = none) (hi : i < vs.length) :
    (process_values sp e vs).1.length = vs.length
      ∧ ((process_values sp e vs).1.getD i false = true ↔
          (i = 0 ∨ ∀ v ∈ vs.take i, vs.getD i 0 < v))
      ∧ (process_values { verbosity := sp.verbosity, min_values := fun _ => none } e
          [10, 7, 7, 9, 3]).1 = [true, true, false, false, true] := by
  refine ⟨process_values_length e vs sp, ?_,
    by simp [process_values, process_evaluator_value]⟩
  rw [process_values_flag e vs sp i hi]
  have hnew : is_new_minimum sp e (vs.getD i 0) = true := by
    simp [is_new_minimum, hunseen]
  constructor
  · intro h; exact Or.inr h.2
  · intro h
    refine ⟨hnew, ?_⟩
    cases h with
    | inl h0 => subst h0; simp
    | inr h => exact h

/-- Claim C5 at a concrete input: position 4 of the values 10, 7, 7, 9, 3. -/
theorem process_evaluator_value_flags_new_minima_witness :
    fresh_progress.min_values 0 = none
      ∧ 4 < [10, 7, 7, 9, (3 : Int)].length
      ∧ ((process_values fresh_progress 0 [10, 7, 7, 9, 3]).1.getD 4 false = true ↔
          (4 = 0 ∨ ∀ v ∈ [10, 7, 7, 9, (3 : Int)].take 4,
            [10, 7, 7, 9, (3 : Int)].getD 4 0 < v)) :=
  ⟨rfl, by decide,
    (process_evaluator_value_flags_new_minima fresh_progress 0 [10, 7, 7, 9, 3] 4 rfl
      (by decide)).2.1⟩

/-- Claim C6. For a context whose cache has one entry per evaluator,
`check_progress` returns true if and only if the cache has an entry whose
evaluator is used for boosting and whose value is a new minimum for that
evaluator in the record as it was before the call (an evaluator not seen yet
counts as new). When no evaluator in the cache is used for boosting, as when
they are used for reporting minima only, it returns false. -/
theorem check_progress_boost_iff {σ : Type} (evs : EvaluatorId → Evaluator σ)
    (sp : SearchProgress) (eval_context : EvaluationContext)
    (hkeys : (cache_keys (get_cache eval_context)).Nodup) :
    ((check_progress evs sp eval_context).boost = true ↔
        ∃ entry ∈ get_cache eval_context, (evs entry.1).is_used_for_boosting = true
          ∧ is_new_minimum sp entry.1 entry.2.get_evaluator_value = true)
      ∧ ((∀ entry ∈ get_cache eval_context, (evs entry.1).is_used_for_boosting = false) →
          (check_progress evs sp eval_context).boost = false) := by
  have hiff := foldl_callback_boost evs (get_cache eval_context)
    { boost := false, progress := sp, reported := [] } hkeys
  simp only [Bool.false_eq_true, false_or] at hiff
  refine ⟨hiff, ?_⟩
  intro hnone
  cases hb : (check_progress evs sp eval_context).boost with
  | false => rfl
  | true =>
    obtain ⟨en, hen, hboost, -⟩ := hiff.mp hb
    rw [hnone en hen] at hboost
    exact Bool.noConfusion hboost

/-- Claim C6 at a concrete input: the context after one evaluation, checked
against a fresh record. -/
theorem check_progress_boost_iff_witness :
    (cache_keys (get_cache (get_result plus_five_evaluators 3 fresh_world).2.ctx)).Nodup
      ∧ (check_progress plus_five_evaluators fresh_progress
          (get_result plus_five_evaluators 3 fresh_world).2.ctx).boost = true :=
  ⟨by decide,
    (check_progress_boost_iff plus_five_evaluators fresh_progress
      (get_result plus_five_evaluators 3 fresh_world).2.ctx (by decide)).1.mpr
      ⟨(3, EvaluationResult.fresh.set_evaluator_value 6), by decide, rfl, rfl⟩⟩

/-! ## The search loop -/

theorem search_loop_of_terminal {τ : Type} (hooks : EngineHooks τ) (is_expired : Nat → Bool)
    (fuel checks : Nat) (e : SearchEngine τ) (h : e.status ≠ .IN_PROGRESS) :
    search_loop hooks is_expired fuel checks e = some e := by
  cases fuel <;> simp [search_loop, h]

theorem search_loop_expired {τ : Type} (hooks : EngineHooks τ) (is_expired : Nat → Bool)
    (fuel checks : Nat) (e : SearchEngine τ) (h : e.status = .IN_PROGRESS)
    (hexp : is_expired checks = true) :
    search_loop hooks is_expired (fuel + 1) checks e =
      some { status := .TIMEOUT, data := (hooks.step e).2, calls := e.calls ++ [.step] } := by
  simp [search_loop, h, hexp]

theorem search_loop_step_terminal {τ : Type} (hooks : EngineHooks τ)
    (is_expired : Nat → Bool) (fuel checks : Nat) (e : SearchEngine τ)
    (h : e.status = .IN_PROGRESS) (hexp : is_expired checks = false)
    (hstep : (hooks.step e).1 ≠ .IN_PROGRESS) :
    search_loop hooks is_expired (fuel + 1) checks e =
      some { status := (hooks.step e).1, data := (hooks.step e).2,
             calls := e.calls ++ [.step] } := by
  simp only [search_loop, h, if_true, hexp]
  exact search_loop_of_terminal hooks is_expired fuel (checks + 1) _ hstep

theorem search_loop_ends_terminal {τ : Type} (hooks : EngineHooks τ)
    (is_expired : Nat → Bool) (fuel : Nat) :
    ∀ (checks : Nat) (e e1 : SearchEngine τ),
      search_loop hooks is_expired fuel checks e = some e1 → e1.status ≠ .IN_PROGRESS := by
  induction fuel with
  | zero =>
    intro checks e e1 hrun
    by_cases h : e.status = .IN_PROGRESS
    · simp [search_loop, h] at hrun
    · simp only [search_loop, h, if_false, Option.some.injEq] at hrun
      subst hrun; exact h
  | succ n ih =>
    intro checks e e1 hrun
    by_cases h : e.status = .IN_PROGRESS
    · simp only [search_loop, h, if_true] at hrun
      by_cases hexp : is_expired checks = true
      · simp only [hexp, if_true, Option.some.injEq] at hrun
        subst hrun
        simp
      · simp only [hexp] at hrun
        exact ih _ _ _ hrun
    · simp only [search_loop, h, if_false, Option.some.injEq] at hrun
      subst hrun; exact h

theorem step_calls_append_step (calls : List HookCall) :
    step_calls (calls ++ [.step]) = step_calls calls + 1 := by
  simp [step_calls]

theorem step_calls_append_init (calls : List HookCall) :
    step_calls (calls ++ [.init]) = step_calls calls := by
  simp [step_calls]

/-- Claim C7. When the status is `IN_PROGRESS` and the countdown timer is
expired at its first check, `search()` returns for every positive fuel, with
status `TIMEOUT` and after exactly one call of `step()`, whatever `step()`
returns (so also when it always returns `IN_PROGRESS`). -/
theorem search_times_out_after_one_step {τ : Type} (hooks : EngineHooks τ)
    (is_expired : Nat → Bool) (fuel : Nat) (e : SearchEngine τ)
    (hstart : e.status = .IN_PROGRESS) (hexpired : is_expired 0 = true) :
    ∃ e1, search hooks is_expired (fuel + 1) e = some e1
      ∧ get_status e1 = .TIMEOUT
      ∧ step_calls e1.calls = step_calls e.calls + 1 := by
  refine ⟨_, search_loop_expired hooks is_expired fuel 0 (after_init hooks e) hstart hexpired,
    rfl, ?_⟩
  simp only [after_init, step_calls_append_step, step_calls_append_init]

/-- Claim C7 at a concrete input: a constructed engine whose `step()` always
returns `IN_PROGRESS`, with a timer that is expired from the start. -/
theorem search_times_out_after_one_step_witness :
    (SearchEngine.constructed INT_MAX ()).status = .IN_PROGRESS
      ∧ ∃ e1, search busy_hooks (fun _ => true) 1 (SearchEngine.constructed INT_MAX ())
          = some e1
        ∧ get_status e1 = .TIMEOUT
        ∧ step_calls e1.calls = step_calls (SearchEngine.constructed INT_MAX ()).calls + 1 :=
  ⟨rfl, search_times_out_after_one_step busy_hooks (fun _ => true) 0
    (SearchEngine.constructed INT_MAX ()) rfl rfl⟩

/-- Counterexample to claim C8. In a task whose initial state is a goal state,
a `step()` that calls `check_goal_and_set_plan` on that state ends `search()`
with status `SOLVED` and a solution found, and the plan is empty. -/
theorem solved_with_empty_plan :
    ∃ e1, search goal_is_initial_hooks (fun _ => false) 1
        (SearchEngine.constructed INT_MAX ()) = some e1
      ∧ get_status e1 = .SOLVED ∧ found_solution e1 = true ∧ get_plan e1 = some [] :=
  ⟨_, rfl, rfl, rfl, rfl⟩

/-- Claim C8, amended. Let `step()` call `check_goal_and_set_plan` on a state
it picks and return `SOLVED` when that call reports success. When the status is
`IN_PROGRESS`, the state picked at the first step is a goal state and the timer
check after that step finds the timer not expired, `search()` returns for every
positive fuel after exactly one `step()`, with status `SOLVED`, with
`found_solution()` true, and with the plan equal to the path that the search
space traces for that state. -/
theorem goal_checking_step_solves {τ : Type} (env : TaskEnv τ) (hooks : EngineHooks τ)
    (pick : SearchEngine τ → State) (otherwise : SearchEngine τ → SearchStatus)
    (is_expired : Nat → Bool) (fuel : Nat) (e : SearchEngine τ)
    (hstep : hooks.step = goal_checking_step env pick otherwise)
    (hstart : e.status = .IN_PROGRESS)
    (hgoal : env.is_goal_state (pick (after_init hooks e)) = true)
    (hrunning : is_expired 0 = false) :
    ∃ e1, search hooks is_expired (fuel + 1) e = some e1
      ∧ get_status e1 = .SOLVED
      ∧ found_solution e1 = true
      ∧ get_plan e1 =
          some (env.trace_path (hooks.init_hook e).derived (pick (after_init hooks e)))
      ∧ step_calls e1.calls = step_calls e.calls + 1 := by
  have hstart1 : (after_init hooks e).status = .IN_PROGRESS := hstart
  have hstepped : hooks.step (after_init hooks e) =
      (.SOLVED, set_plan (hooks.init_hook e)
        (env.trace_path (hooks.init_hook e).derived (pick (after_init hooks e)))) := by
    rw [hstep]
    simp only [goal_checking_step, check_goal_and_set_plan, hgoal, if_true]
    rfl
  have hrun := search_loop_step_terminal hooks is_expired fuel 0 _ hstart1 hrunning
    (by rw [hstepped]; simp)
  refine ⟨_, hrun, ?_, ?_, ?_, ?_⟩
  · simp only [get_status, hstepped]
  · simp only [found_solution, hstepped, set_plan]
  · simp only [get_plan, hstepped, set_plan, if_true]
  · simp only [after_init, step_calls_append_step, step_calls_append_init]

/-- Claim C8, amended, at a concrete input: the goal state is one operator
away from the initial state. -/
theorem goal_checking_step_solves_witness :
    one_step_env.is_goal_state 1 = true
      ∧ ∃ e1, search one_step_hooks (fun _ => false) 1 (SearchEngine.constructed INT_MAX ())
          = some e1
        ∧ get_status e1 = .SOLVED
        ∧ found_solution e1 = true
        ∧ get_plan e1 = some [some 0] := by
  refine ⟨rfl, ?_⟩
  obtain ⟨e1, hrun, hstatus, hfound, hplan, -⟩ :=
    goal_checking_step_solves one_step_env one_step_hooks (fun _ => 1)
      (fun _ => .IN_PROGRESS) (fun _ => false) 0 (SearchEngine.constructed INT_MAX ())
      rfl rfl rfl rfl
  exact ⟨e1, hrun, hstatus, hfound, hplan⟩

/-- Counterexample to claim C9. The first `step()` of the engine returns
`SOLVED`; the timer check that follows finds the timer expired, and `search()`
ends with status `TIMEOUT`, the solution still recorded. -/
theorem solved_status_overwritten_by_timeout :
    (one_step_hooks.step (after_init one_step_hooks (SearchEngine.constructed INT_MAX ()))).1
        = .SOLVED
      ∧ ∃ e1, search one_step_hooks (fun _ => true) 1 (SearchEngine.constructed INT_MAX ())
          = some e1
        ∧ get_status e1 = .TIMEOUT ∧ found_solution e1 = true :=
  ⟨rfl, _, rfl, rfl, rfl⟩

/-- Claim C9, amended. A constructed engine has status `IN_PROGRESS`. A call
of `search()` on an engine whose status is not `IN_PROGRESS` returns for every
fuel, makes no call of `step()` and leaves the status as it is. Whenever
`search()` returns, the status is not `IN_PROGRESS`. In the loop, when
`step()` returns a status other than `IN_PROGRESS`, the loop ends at once, with
that status if the timer check that follows finds the timer not expired and
with `TIMEOUT` if it finds the timer expired. -/
theorem search_status_one_way {τ : Type} (hooks : EngineHooks τ) (is_expired : Nat → Bool)
    (fuel : Nat) (e : SearchEngine τ) (hterminal : e.status ≠ .IN_PROGRESS) :
    (∀ (bound : Int) (derived : τ),
        get_status (SearchEngine.constructed bound derived) = .IN_PROGRESS)
      ∧ (∃ e1, search hooks is_expired fuel e = some e1
          ∧ get_status e1 = get_status e ∧ step_calls e1.calls = step_calls e.calls)
      ∧ (∀ (e0 e1 : SearchEngine τ) (fuel0 : Nat),
          search hooks is_expired fuel0 e0 = some e1 → get_status e1 ≠ .IN_PROGRESS)
      ∧ (∀ (e0 : SearchEngine τ) (fuel0 checks : Nat),
          e0.status = .IN_PROGRESS → (hooks.step e0).1 ≠ .IN_PROGRESS →
          search_loop hooks is_expired (fuel0 + 1) checks e0 =
            some { status := if is_expired checks then .TIMEOUT else (hooks.step e0).1,
                   data := (hooks.step e0).2, calls := e0.calls ++ [.step] }) := by
  refine ⟨fun _ _ => rfl, ⟨after_init hooks e, ?_, rfl, ?_⟩, ?_, ?_⟩
  · exact search_loop_of_terminal hooks is_expired fuel 0 (after_init hooks e) hterminal
  · simp only [after_init, step_calls_append_init]
  · intro e0 e1 fuel0 hrun
    exact search_loop_ends_terminal hooks is_expired fuel0 0 _ e1 hrun
  · intro e0 fuel0 checks hprog hstep
    cases hexp : is_expired checks with
    | true =>
      rw [search_loop_expired hooks is_expired fuel0 checks e0 hprog hexp]
      simp
    | false =>
      rw [search_loop_step_terminal hooks is_expired fuel0 checks e0 hprog hexp hstep]
      simp

/-- Claim C9, amended, at a concrete input: an engine whose status is
`FAILED`. -/
theorem search_status_one_way_witness :
    (SearchEngine.mk SearchStatus.FAILED (SearchEngine.constructed INT_MAX ()).data []).status
        ≠ .IN_PROGRESS
      ∧ ∃ e1, search busy_hooks (fun _ => false) 5
          (SearchEngine.mk SearchStatus.FAILED (SearchEngine.constructed INT_MAX ()).data [])
            = some e1
        ∧ get_status e1 = .FAILED ∧ step_calls e1.calls = 0 :=
  ⟨by decide,
    (search_status_one_way busy_hooks (fun _ => false) 5
      (SearchEngine.mk SearchStatus.FAILED (SearchEngine.constructed INT_MAX ()).data [])
      (by decide)).2.1⟩

/-! ## Finite and infinite values -/

/-- Claim C10. The method `get_evaluator_value(E)` fails on its assertion if
and only if the value of the result `get_result(E)` returns is the infinite
sentinel `INFTY`, which is when `is_infinite()` holds of it; otherwise it
returns exactly the value of that result, with the world `get_result(E)`
leaves. -/
theorem get_evaluator_value_fails_iff_infinite {σ : Type} (evs : EvaluatorId → Evaluator σ)
    (E : EvaluatorId) (w : World σ) :
    (get_evaluator_value evs E w = none ↔
        (get_result evs E w).1.get_evaluator_value = EvaluationResult.INFTY)
      ∧ (get_evaluator_value evs E w = none ↔ (get_result evs E w).1.is_infinite = true)
      ∧ get_evaluator_value evs E w =
          if (get_result evs E w).1.is_infinite then none
          else some ((get_result evs E w).1.get_evaluator_value, (get_result evs E w).2) := by
  unfold get_evaluator_value EvaluationResult.is_infinite EvaluationResult.get_evaluator_value
  by_cases h : (get_result evs E w).1.evaluator_value = EvaluationResult.INFTY
  · simp [h]
  · simp [h]

/-! ## The accessors of a context -/

/-- Claim C11. The method `get_evaluator_value_or_infinity(E)` has no
assertion and always returns: its value is the value of the result that
`get_result(E)` returns, and it leaves the world as `get_result(E)` does. The
value is the largest int exactly when `is_evaluator_value_infinite(E)` is true,
and when the result is not infinite `get_evaluator_value(E)` succeeds and
returns the same value and world. -/
theorem get_evaluator_value_or_infinity_never_fails {σ : Type}
    (evs : EvaluatorId → Evaluator σ) (E : EvaluatorId) (w : World σ) :
    get_evaluator_value_or_infinity evs E w =
        ((get_result evs E w).1.get_evaluator_value, (get_result evs E w).2)
      ∧ ((is_evaluator_value_infinite evs E w).1 = true ↔
          (get_evaluator_value_or_infinity evs E w).1 = INT_MAX)
      ∧ get_evaluator_value evs E w =
          (if (is_evaluator_value_infinite evs E w).1 then none
          else some (get_evaluator_value_or_infinity evs E w)) := by
  unfold get_evaluator_value_or_infinity is_evaluator_value_infinite get_evaluator_value
    EvaluationResult.is_infinite EvaluationResult.get_evaluator_value EvaluationResult.INFTY
  by_cases h : (get_result evs E w).1.evaluator_value = INT_MAX
  · simp [h]
  · simp [h]

/-- Counterexample to claim C12. The call `get_operator_id()` on the
state-only context built from state id 0 returns to the caller: the value is
the no-operator sentinel, after one line written to `cerr`. -/
theorem state_context_returns_operator_id :
    StateEvaluationContext.get_operator_id
        (StateEvaluationContext.create 0 { lookup_state := fun id => id } false none false)
      = (OperatorID.no_operator, [CerrLine.state_context_has_no_operator_id]) := rfl

/-- Claim C12, amended. On a state-only context, built from a state id,
`get_operator_id()` writes one line to `cerr` and returns the stored operator
id, which is the no-operator sentinel; it does not abort. On an edge context
it returns the operator id given at construction. -/
theorem get_operator_id_of_constructed (registry : StateRegistry)
    (is_preferred : Bool) (statistics : Option Nat) (calculate_preferred : Bool) :
    (∀ entry : StateID,
        StateEvaluationContext.get_operator_id
            (StateEvaluationContext.create entry registry is_preferred statistics
              calculate_preferred)
          = (OperatorID.no_operator, [CerrLine.state_context_has_no_operator_id]))
      ∧ (∀ entry : StateID × OperatorID,
        EdgeEvaluationContext.get_operator_id
            (EdgeEvaluationContext.create entry registry is_preferred statistics
              calculate_preferred)
          = entry.2) :=
  ⟨fun _ => rfl, fun _ => rfl⟩

/-! ## Copied contexts -/

/-- Claim C16. A context made by the copying constructor has the state, the
operator id and the cache of the original, and `is_preferred()` returns the
flag given to the constructor. For an evaluator `E` whose slot is filled in the
original, `get_result(E)` on the copy returns the result stored in the original
and leaves the world as it is: the ghost log of `compute_result` calls and the
statistics objects are unchanged. -/
theorem copied_context_shares_results {σ : Type} (evs : EvaluatorId → Evaluator σ)
    (other : EvaluationContext) (is_preferred_new : Bool) (statistics : Option Nat)
    (calculate_preferred : Bool) (E : EvaluatorId)
    (hcomputed : (cache_at other.cache E).is_uninitialized = false) :
    get_state (EvaluationContext.copy other is_preferred_new statistics calculate_preferred)
        = get_state other
      ∧ EdgeEvaluationContext.get_operator_id
          (EvaluationContext.copy other is_preferred_new statistics calculate_preferred)
        = EdgeEvaluationContext.get_operator_id other
      ∧ is_preferred
          (EvaluationContext.copy other is_preferred_new statistics calculate_preferred)
        = is_preferred_new
      ∧ get_cache
          (EvaluationContext.copy other is_preferred_new statistics calculate_preferred)
        = get_cache other
      ∧ (∀ (stats : Nat → SearchStatistics) (est : σ) (computed : List EvaluatorId),
          get_result evs E
              { ctx := EvaluationContext.copy other is_preferred_new statistics
                  calculate_preferred,
                stats := stats, est := est, computed := computed }
            = (cache_at other.cache E,
              { ctx := EvaluationContext.copy other is_preferred_new statistics
                  calculate_preferred,
                stats := stats, est := est, computed := computed })) := by
  refine ⟨rfl, rfl, rfl, rfl, ?_⟩
  intro stats est computed
  exact get_result_of_initialized evs E _ hcomputed

/-- Claim C16 at a concrete input: a copy of the context in which evaluator 3
has been computed. -/
theorem copied_context_shares_results_witness :
    (cache_at evaluated_context.cache 3).is_uninitialized = false
      ∧ get_result plus_five_evaluators 3
          { ctx := EvaluationContext.copy evaluated_context true (some 1) false,
            stats := fun _ => { evaluations := 0 }, est := 0, computed := [] }
        = (EvaluationResult.fresh.set_evaluator_value 6,
          { ctx := EvaluationContext.copy evaluated_context true (some 1) false,
            stats := fun _ => { evaluations := 0 }, est := 0, computed := [] }) :=
  ⟨rfl,
    (copied_context_shares_results plus_five_evaluators evaluated_context true (some 1)
      false 3 rfl).2.2.2.2 (fun _ => { evaluations := 0 }) 0 []⟩

theorem copy_construct_fresh_address (storage : CacheStorage) (other : Nat)
    (hused : other < storage.next) :
    (EvaluatorCache.copy_construct storage other).1 ≠ other := by
  simp only [EvaluatorCache.copy_construct]
  omega

theorem get_result_stored_other_map {σ : Type} (evs : EvaluatorId → Evaluator σ)
    (c : StoredContext) (E : EvaluatorId) (h : StoredWorld σ) (a : Nat) (ha : a ≠ c.cache) :
    (get_result_stored evs c E h).2.storage.maps a = h.storage.maps a := by
  simp [get_result_stored, Function.update, ha]

theorem get_result_stored_own_map {σ : Type} (evs : EvaluatorId → Evaluator σ)
    (c : StoredContext) (E : EvaluatorId) (h : StoredWorld σ) :
    (get_result_stored evs c E h).2.storage.maps c.cache
      = (get_result evs E (h.world c)).2.ctx.cache := by
  simp [get_result_stored, Function.update]

/-- Claim C17. Let the context `other` be in storage, with its cache at an
address in use, and let a context be made from it by the copying constructor.
The cache of the copy is at an address other than the cache of `other`; the
construction leaves the cache of `other` as it was and gives the copy the same
entries, and the copy stands for the context that the copying constructor
makes of the one `other` stands for. Afterwards a call of `get_result(E)` on
the copy leaves the cache of `other` as it was and a call of `get_result(E)` on
`other` leaves the cache of the copy as it was, whatever `E` is, and each call
leaves the cache of its own context as `get_result` says. When the slot of `E`
is uninitialized in `other` and `compute_result` of `E` returns an initialized
result, the call on the copy fills the slot of `E` in the copy with the result
it returns, and the slot of `E` in `other` is still uninitialized. -/
theorem copied_caches_diverge {σ : Type} (evs : EvaluatorId → Evaluator σ)
    (other : StoredContext) (is_preferred_new : Bool) (statistics : Option Nat)
    (calculate_preferred : Bool) (E : EvaluatorId) (h : StoredWorld σ)
    (made : StoredContext × CacheStorage) (h1 : StoredWorld σ)
    (hused : other.cache < h.storage.next)
    (hmade : made = StoredContext.copy h.storage other is_preferred_new statistics
      calculate_preferred)
    (hafter : h1 = { storage := made.2, stats := h.stats, est := h.est,
                     computed := h.computed }) :
    made.1.cache ≠ other.cache
      ∧ get_cache (other.load made.2) = get_cache (other.load h.storage)
      ∧ get_cache (made.1.load made.2) = get_cache (other.load h.storage)
      ∧ made.1.load made.2
          = EvaluationContext.copy (other.load h.storage) is_preferred_new statistics
              calculate_preferred
      ∧ get_cache (other.load (get_result_stored evs made.1 E h1).2.storage)
          = get_cache (other.load h.storage)
      ∧ get_cache (made.1.load (get_result_stored evs other E h1).2.storage)
          = get_cache (other.load h.storage)
      ∧ get_cache (made.1.load (get_result_stored evs made.1 E h1).2.storage)
          = get_cache (get_result evs E (h1.world made.1)).2.ctx
      ∧ get_cache (other.load (get_result_stored evs other E h1).2.storage)
          = get_cache (get_result evs E (h1.world other)).2.ctx
      ∧ ((cache_at (get_cache (other.load h.storage)) E).is_uninitialized = true →
          ((evs E).compute_result (entered (h1.world made.1) E)).1.is_uninitialized = false →
          cache_at (get_cache (made.1.load (get_result_stored evs made.1 E h1).2.storage)) E
              = (get_result_stored evs made.1 E h1).1
            ∧ (get_result_stored evs made.1 E h1).1.is_uninitialized = false
            ∧ (cache_at (get_cache (other.load
                (get_result_stored evs made.1 E h1).2.storage)) E).is_uninitialized
              = true) := by
  have hne : made.1.cache ≠ other.cache := by
    rw [hmade]
    exact copy_construct_fresh_address h.storage other.cache hused
  have hne1 : other.cache ≠ made.1.cache := fun hh => hne hh.symm
  have hkept : made.2.maps other.cache = h.storage.maps other.cache := by
    have hlt : other.cache ≠ h.storage.next := by omega
    rw [hmade]
    simp [StoredContext.copy, EvaluatorCache.copy_construct, Function.update, hlt]
  have hcopied : made.2.maps made.1.cache = h.storage.maps other.cache := by
    rw [hmade]
    simp [StoredContext.copy, EvaluatorCache.copy_construct, Function.update]
  have hstorage : h1.storage = made.2 := by rw [hafter]
  have hcopy_other : (get_result_stored evs made.1 E h1).2.storage.maps other.cache
      = h.storage.maps other.cache := by
    rw [get_result_stored_other_map evs made.1 E h1 other.cache hne1, hstorage, hkept]
  have hload : made.1.load made.2
      = EvaluationContext.copy (other.load h.storage) is_preferred_new statistics
          calculate_preferred := by
    have hc := hcopied
    rw [hmade] at hc ⊢
    simp only [StoredContext.load, StoredContext.copy, EvaluationContext.copy,
      EvaluationContext.create] at hc ⊢
    rw [hc]
  refine ⟨hne, ?_, ?_, hload, ?_, ?_, ?_, ?_, ?_⟩
  · simp only [get_cache, StoredContext.load, hkept]
  · simp only [get_cache, StoredContext.load, hcopied]
  · simp only [get_cache, StoredContext.load, hcopy_other]
  · simp only [get_cache, StoredContext.load]
    rw [get_result_stored_other_map evs other E h1 made.1.cache hne, hstorage, hcopied]
  · simp only [get_cache, StoredContext.load, get_result_stored_own_map]
  · simp only [get_cache, StoredContext.load, get_result_stored_own_map]
  · intro hfresh hvalid
    have hfresh1 : (cache_at (h1.world made.1).ctx.cache E).is_uninitialized = true := by
      simp only [StoredWorld.world, StoredContext.load, hstorage, hcopied]
      exact hfresh
    have hfst := get_result_fst_of_uninitialized evs E (h1.world made.1) hfresh1
    have hslot := get_result_slot_of_uninitialized evs E (h1.world made.1) hfresh1
    refine ⟨?_, ?_, ?_⟩
    · simp only [get_cache, StoredContext.load, get_result_stored_own_map]
      exact hslot
    · show (get_result evs E (h1.world made.1)).1.is_uninitialized = false
      rw [hfst]
      exact hvalid
    · simp only [get_cache, StoredContext.load, hcopy_other]
      exact hfresh

/-- Claim C17 at a concrete input: the context with its cache at address 0 is
copied, the copy has its cache at address 1, and after a call for the weighted
evaluator 1 on the copy the cache of the copy holds the results of evaluators 1
and 0 and the cache of the original is still empty. -/
theorem copied_caches_diverge_witness :
    stored_fresh_context.cache < fresh_stored_world.storage.next
      ∧ (StoredContext.copy fresh_stored_world.storage stored_fresh_context true none
          false).1.cache = 1
      ∧ (get_result_stored weighted_evaluators
          (StoredContext.copy fresh_stored_world.storage stored_fresh_context true none
            false).1 1
          { storage := (StoredContext.copy fresh_stored_world.storage stored_fresh_context
              true none false).2,
            stats := fresh_stored_world.stats, est := fresh_stored_world.est,
            computed := fresh_stored_world.computed }).2.storage.maps 1
        = [(1, EvaluationResult.fresh.set_evaluator_value 18),
           (0, EvaluationResult.fresh.set_evaluator_value 6)]
      ∧ get_cache (stored_fresh_context.load
          (get_result_stored weighted_evaluators
            (StoredContext.copy fresh_stored_world.storage stored_fresh_context true none
              false).1 1
            { storage := (StoredContext.copy fresh_stored_world.storage stored_fresh_context
                true none false).2,
              stats := fresh_stored_world.stats, est := fresh_stored_world.est,
              computed := fresh_stored_world.computed }).2.storage)
        = get_cache (stored_fresh_context.load fresh_stored_world.storage)
      ∧ get_cache (stored_fresh_context.load fresh_stored_world.storage) = [] :=
  ⟨by decide, rfl, rfl,
    (copied_caches_diverge weighted_evaluators stored_fresh_context true none false 1
      fresh_stored_world _ _ (by decide) rfl rfl).2.2.2.2.1,
    rfl⟩

/-! ## The plan -/

/-- Claim C13. The method `check_goal_and_set_plan(state)` returns true if
and only if the goal test accepts `state`. When it does, the solution-found
flag is set and the plan is the path the search space traces for `state`, so
that `found_solution()` is true and `get_plan()` returns that path; the other
members are unchanged. When it does not, the engine is unchanged, plan and
flag included. -/
theorem check_goal_and_set_plan_iff_goal {τ : Type} (env : TaskEnv τ) (e : SearchEngine τ)
    (state : State) :
    ((check_goal_and_set_plan env e.data state).1 = true ↔ env.is_goal_state state = true)
      ∧ check_goal_and_set_plan env e.data state =
          (if env.is_goal_state state then
            (true, EngineData.mk true (env.trace_path e.data.derived state) e.data.bound
              e.data.derived)
          else (false, e.data))
      ∧ (if env.is_goal_state state then
          get_plan (SearchEngine.mk e.status (check_goal_and_set_plan env e.data state).2
              e.calls) = some (env.trace_path e.data.derived state)
            ∧ found_solution (SearchEngine.mk e.status
                (check_goal_and_set_plan env e.data state).2 e.calls) = true
        else
          SearchEngine.mk e.status (check_goal_and_set_plan env e.data state).2 e.calls
            = e) := by
  cases hg : env.is_goal_state state with
  | true => simp [check_goal_and_set_plan, hg, set_plan, get_plan, found_solution]
  | false => simp [check_goal_and_set_plan, hg]

/-- Counterexample to claim C14. After a first successful
`check_goal_and_set_plan` has recorded the plan of goal state 1, a second one
on goal state 2 returns true and the recorded plan is that of state 2; two
calls of `set_plan` in a row leave the second plan. -/
theorem second_plan_replaces_first :
    found_solution (SearchEngine.mk SearchStatus.IN_PROGRESS
        (check_goal_and_set_plan two_goals_env
          (SearchEngine.constructed INT_MAX ()).data 1).2 []) = true
      ∧ (check_goal_and_set_plan two_goals_env
          (SearchEngine.constructed INT_MAX ()).data 1).2.plan = [some 0]
      ∧ check_goal_and_set_plan two_goals_env
          (check_goal_and_set_plan two_goals_env
            (SearchEngine.constructed INT_MAX ()).data 1).2 2
        = (true, EngineData.mk true [some 0, some 1] INT_MAX ())
      ∧ (set_plan (set_plan (SearchEngine.constructed INT_MAX ()).data [some 0])
          [some 1]).plan = [some 1] :=
  ⟨rfl, rfl, rfl, rfl⟩

/-- Claim C14, amended. The method `set_plan` sets the solution-found flag and
records the given plan whatever the engine held before, and so does
`check_goal_and_set_plan` on a goal state: neither fails when a solution has
already been found, and of two plans set one after the other the second is the
one recorded. The only assertion about the plan is that of `get_plan()`, which
fails exactly when no solution has been found. -/
theorem set_plan_records_last_plan {τ : Type} (env : TaskEnv τ) (d : EngineData τ)
    (p : Plan) (state : State) (hgoal : env.is_goal_state state = true) :
    set_plan d p = EngineData.mk true p d.bound d.derived
      ∧ check_goal_and_set_plan env d state =
          (true, EngineData.mk true (env.trace_path d.derived state) d.bound d.derived)
      ∧ (∀ q : Plan, set_plan (set_plan d p) q = set_plan d q)
      ∧ (∀ e : SearchEngine τ, get_plan e = none ↔ found_solution e = false) := by
  refine ⟨rfl, ?_, fun _ => rfl, ?_⟩
  · simp [check_goal_and_set_plan, hgoal, set_plan]
  · intro e
    cases h : e.data.solution_found <;> simp [get_plan, found_solution, h]

/-- Claim C14, amended, at a concrete input: a success on goal state 2 after
a plan has been set. -/
theorem set_plan_records_last_plan_witness :
    two_goals_env.is_goal_state 2 = true
      ∧ check_goal_and_set_plan two_goals_env
          (set_plan (SearchEngine.constructed INT_MAX ()).data [some 0]) 2
        = (true, EngineData.mk true [some 0, some 1] INT_MAX ()) :=
  ⟨rfl,
    (set_plan_records_last_plan two_goals_env
      (set_plan (SearchEngine.constructed INT_MAX ()).data [some 0]) [] 2 rfl).2.1⟩

/-! ## Construction of the engine -/

/-- Claim C15. With a negative bound the constructor exits with
`SEARCH_INPUT_ERROR` and no engine exists. With a non-negative bound, and a
real-g evaluator that reports that it caches its estimates when it is made with
`cache_estimates` set, the constructor returns an engine that stores the bound,
has status `IN_PROGRESS`, no solution and no call of `step()` behind it. -/
theorem negative_bound_is_input_error {τ : Type}
    (does_cache_estimates : EvaluatorOptions → Bool) (opts : Options) (derived : τ)
    (hcaches : does_cache_estimates { cache_estimates := true } = true) :
    (opts.bound < 0 →
        (SearchEngine.create does_cache_estimates opts derived
          : Except ExitCode (ConstructedEngine τ)) = .error .SEARCH_INPUT_ERROR)
      ∧ (0 ≤ opts.bound →
        ∃ c, SearchEngine.create does_cache_estimates opts derived = .ok c
          ∧ c.engine.data.bound = opts.bound
          ∧ get_status c.engine = .IN_PROGRESS
          ∧ found_solution c.engine = false
          ∧ c.engine.calls = []) := by
  constructor
  · intro hneg
    simp [SearchEngine.create, hneg]
  · intro hpos
    have hn : ¬ opts.bound < 0 := not_lt.mpr hpos
    by_cases hb : opts.bound = INT_MAX
    · have hcall : SearchEngine.create does_cache_estimates opts derived =
          .ok { engine := SearchEngine.constructed opts.bound derived,
                real_g_evaluator := none } := by
        simp only [SearchEngine.create, hn, if_false]
        simp [hb]
      exact ⟨_, hcall, rfl, rfl, rfl, rfl⟩
    · have hcall : SearchEngine.create does_cache_estimates opts derived =
          .ok { engine := SearchEngine.constructed opts.bound derived,
                real_g_evaluator := some { cache_estimates := true } } := by
        simp [SearchEngine.create, hn, hb, hcaches]
      exact ⟨_, hcall, rfl, rfl, rfl, rfl⟩

/-- Claim C15 at concrete inputs: the bounds -1 and 10. -/
theorem negative_bound_is_input_error_witness :
    caches_as_configured { cache_estimates := true } = true
      ∧ (SearchEngine.create caches_as_configured
          { bound := -1, verbosity := .NORMAL } ()
          : Except ExitCode (ConstructedEngine Unit)) = .error .SEARCH_INPUT_ERROR
      ∧ ∃ c, SearchEngine.create caches_as_configured
            { bound := 10, verbosity := .NORMAL } () = .ok c
          ∧ c.engine.data.bound = 10 :=
  ⟨rfl,
    (negative_bound_is_input_error caches_as_configured
      { bound := -1, verbosity := .NORMAL } () rfl).1 (by decide),
    ((negative_bound_is_input_error caches_as_configured
      { bound := 10, verbosity := .NORMAL } () rfl).2 (by decide)).imp
      (fun _ hc => ⟨hc.1, hc.2.1⟩)⟩

/-! ## The results of the path-cost evaluator -/

/-- Claim C18. On a context whose operator id is not the no-operator
sentinel, `GEvaluator::compute_result` returns an initialized result whose
value is the int sum of the cached cost of the context's state and the cost of
the operator (the mathematical sum when that is in the int range), with the
count-evaluation flag true, and the evaluator, so every cached cost and dirty
flag, is unchanged. -/
theorem compute_result_on_edge (g : GEvaluator) (eval_context : EvaluationContext)
    (hop : EdgeEvaluationContext.get_operator_id eval_context ≠ OperatorID.no_operator) :
    ∃ index, EdgeEvaluationContext.get_operator_id eval_context = some index
      ∧ (g.compute_result eval_context).1.get_evaluator_value =
          int_add (g.heuristic_cache (get_state eval_context)).h (g.get_cost index)
      ∧ (-2147483648 ≤ (g.heuristic_cache (get_state eval_context)).h + g.get_cost index
          ∧ (g.heuristic_cache (get_state eval_context)).h + g.get_cost index ≤ INT_MAX →
        (g.compute_result eval_context).1.get_evaluator_value =
          (g.heuristic_cache (get_state eval_context)).h + g.get_cost index)
      ∧ (g.compute_result eval_context).1.get_count_evaluation = true
      ∧ (g.compute_result eval_context).1.is_uninitialized = false
      ∧ (g.compute_result eval_context).2 = g := by
  cases hid : EdgeEvaluationContext.get_operator_id eval_context with
  | none => exact absurd hid hop
  | some index =>
    have hvalue : (g.compute_result eval_context).1.get_evaluator_value =
        int_add (g.heuristic_cache (get_state eval_context)).h (g.get_cost index) := by
      simp [GEvaluator.compute_result, hid, EvaluationResult.get_evaluator_value,
        EvaluationResult.set_evaluator_value]
    refine ⟨index, rfl, hvalue, ?_, ?_, ?_, ?_⟩
    · intro hr
      rw [hvalue, int_add_of_in_range _ _ hr.1 hr.2]
    · simp [GEvaluator.compute_result, hid, EvaluationResult.get_count_evaluation,
        EvaluationResult.set_evaluator_value, EvaluationResult.set_count_evaluation]
    · simp [GEvaluator.compute_result, hid, EvaluationResult.is_uninitialized,
        EvaluationResult.set_evaluator_value]
    · simp [GEvaluator.compute_result, hid]

/-- Claim C18 at a concrete input: the edge from `S1` (cost 3) by operator 1
(cost 4). -/
theorem compute_result_on_edge_witness :
    EdgeEvaluationContext.get_operator_id edge_context_S1 ≠ OperatorID.no_operator
      ∧ ∃ index, EdgeEvaluationContext.get_operator_id edge_context_S1 = some index
        ∧ (g_at_S1.compute_result edge_context_S1).1.get_evaluator_value =
            int_add (g_at_S1.heuristic_cache (get_state edge_context_S1)).h
              (g_at_S1.get_cost index)
        ∧ (g_at_S1.compute_result edge_context_S1).1.get_evaluator_value = 7 :=
  ⟨by decide,
    (compute_result_on_edge g_at_S1 edge_context_S1 (by decide)).imp
      (fun _ hc => ⟨hc.1, hc.2.1, rfl⟩)⟩

/-- Claim C19. On a context whose operator id is the no-operator sentinel,
`GEvaluator::compute_result` returns an initialized result whose value is the
cached cost of the context's state, with the count-evaluation flag false.
Afterwards the dirty flag of that state is false, its cached cost is unchanged,
and the entries of all other states are unchanged. -/
theorem compute_result_on_state (g : GEvaluator) (eval_context : EvaluationContext)
    (hop : EdgeEvaluationContext.get_operator_id eval_context = OperatorID.no_operator) :
    (g.compute_result eval_context).1.get_evaluator_value
        = (g.heuristic_cache (get_state eval_context)).h
      ∧ (g.compute_result eval_context).1.get_count_evaluation = false
      ∧ (g.compute_result eval_context).1.is_uninitialized = false
      ∧ ((g.compute_result eval_context).2.heuristic_cache (get_state eval_context)).dirty
        = false
      ∧ ((g.compute_result eval_context).2.heuristic_cache (get_state eval_context)).h
        = (g.heuristic_cache (get_state eval_context)).h
      ∧ (∀ s, s ≠ get_state eval_context →
          (g.compute_result eval_context).2.heuristic_cache s = g.heuristic_cache s)
      ∧ (g.compute_result eval_context).2.NO_VALUE = g.NO_VALUE
      ∧ (g.compute_result eval_context).2.get_cost = g.get_cost := by
  have hid : EdgeEvaluationContext.get_operator_id eval_context = none := hop
  refine ⟨?_, ?_, ?_, ?_, ?_, ?_, ?_, ?_⟩
  · simp [GEvaluator.compute_result, hid, EvaluationResult.get_evaluator_value,
      EvaluationResult.set_evaluator_value]
  · simp [GEvaluator.compute_result, hid, EvaluationResult.get_count_evaluation,
      EvaluationResult.set_evaluator_value, EvaluationResult.set_count_evaluation]
  · simp [GEvaluator.compute_result, hid, EvaluationResult.is_uninitialized,
      EvaluationResult.set_evaluator_value]
  · simp [GEvaluator.compute_result, hid]
  · simp [GEvaluator.compute_result, hid]
  · intro s hs
    simp [GEvaluator.compute_result, hid, Function.update, hs]
  · simp [GEvaluator.compute_result, hid]
  · simp [GEvaluator.compute_result, hid]

/-- Claim C19 at a concrete input: the no-operator query on `S1`. -/
theorem compute_result_on_state_witness :
    EdgeEvaluationContext.get_operator_id state_context_S1 = OperatorID.no_operator
      ∧ (g_at_S1.heuristic_cache 1).dirty = true
      ∧ (g_at_S1.compute_result state_context_S1).1.get_evaluator_value = 3
      ∧ ((g_at_S1.compute_result state_context_S1).2.heuristic_cache 1).dirty = false :=
  ⟨rfl, rfl,
    (compute_result_on_state g_at_S1 state_context_S1 rfl).1,
    (compute_result_on_state g_at_S1 state_context_S1 rfl).2.2.2.1⟩

/-! ## The running minimum -/

theorem process_evaluator_value_same (sp : SearchProgress) (e : EvaluatorId) (v : Int) :
    (process_evaluator_value sp e v).2.min_values e =
      match sp.min_values e with
      | none => some v
      | some a => some (if v < a then v else a) := by
  unfold process_evaluator_value
  cases h : sp.min_values e with
  | none => simp
  | some a => by_cases hlt : v < a <;> simp [hlt, h]

theorem process_evaluator_value_non_increasing (sp : SearchProgress) (e1 e2 : EvaluatorId)
    (v a : Int) (h : sp.min_values e2 = some a) :
    ∃ b, (process_evaluator_value sp e1 v).2.min_values e2 = some b ∧ b ≤ a := by
  by_cases he : e2 = e1
  · subst he
    rw [process_evaluator_value_same, h]
    by_cases hlt : v < a
    · exact ⟨v, by simp [hlt], le_of_lt hlt⟩
    · exact ⟨a, by simp [hlt], le_refl a⟩
  · rw [process_evaluator_value_other sp e1 e2 v he, h]
    exact ⟨a, rfl, le_refl a⟩

theorem process_calls_non_increasing (cs : List (EvaluatorId × Int)) :
    ∀ (sp : SearchProgress) (e : EvaluatorId) (a : Int), sp.min_values e = some a →
      ∃ m, (process_calls sp cs).min_values e = some m ∧ m ≤ a
        ∧ (m = a ∨ (e, m) ∈ cs) ∧ ∀ c ∈ cs, c.1 = e → m ≤ c.2 := by
  induction cs with
  | nil =>
    intro sp e a h
    exact ⟨a, h, le_refl a, Or.inl rfl, by simp⟩
  | cons c rest ih =>
    intro sp e a h
    obtain ⟨k, v⟩ := c
    by_cases hk : e = k
    · subst hk
      have hstep := process_evaluator_value_same sp e v
      rw [h] at hstep
      obtain ⟨m, hm, hle, hmem, hall⟩ := ih _ e _ hstep
      refine ⟨m, hm, ?_, ?_, ?_⟩
      · by_cases hlt : v < a
        · simp only [hlt, if_true] at hle; omega
        · simpa [hlt] using hle
      · by_cases hlt : v < a
        · simp only [hlt, if_true] at hmem
          cases hmem with
          | inl h1 => subst h1; exact Or.inr (List.mem_cons_self _ _)
          | inr h1 => exact Or.inr (List.mem_cons_of_mem _ h1)
        · simp only [hlt, if_false] at hmem
          cases hmem with
          | inl h1 => exact Or.inl h1
          | inr h1 => exact Or.inr (List.mem_cons_of_mem _ h1)
      · intro c hc hce
        rcases List.mem_cons.mp hc with h1 | h1
        · subst h1
          by_cases hlt : v < a
          · simpa [hlt] using hle
          · simp only [hlt, if_false] at hle; simp only; omega
        · exact hall c h1 hce
    · have hstep : (process_evaluator_value sp k v).2.min_values e = some a := by
        rw [process_evaluator_value_other sp k e v hk, h]
      obtain ⟨m, hm, hle, hmem, hall⟩ := ih _ e a hstep
      refine ⟨m, hm, hle, ?_, ?_⟩
      · cases hmem with
        | inl h1 => exact Or.inl h1
        | inr h1 => exact Or.inr (List.mem_cons_of_mem _ h1)
      · intro c hc hce
        rcases List.mem_cons.mp hc with h1 | h1
        · subst h1; exact absurd hce.symm hk
        · exact hall c h1 hce

theorem process_calls_minimum_of_seen (cs : List (EvaluatorId × Int)) :
    ∀ (sp : SearchProgress) (e : EvaluatorId), sp.min_values e = none →
      (∃ c ∈ cs, c.1 = e) →
      ∃ m, (process_calls sp cs).min_values e = some m ∧ (e, m) ∈ cs
        ∧ ∀ c ∈ cs, c.1 = e → m ≤ c.2 := by
  induction cs with
  | nil =>
    intro sp e _ hseen
    obtain ⟨c, hc, _⟩ := hseen
    simp at hc
  | cons c rest ih =>
    intro sp e h hseen
    obtain ⟨k, v⟩ := c
    by_cases hk : e = k
    · subst hk
      have hstep := process_evaluator_value_same sp e v
      rw [h] at hstep
      obtain ⟨m, hm, hle, hmem, hall⟩ := process_calls_non_increasing rest _ e v hstep
      refine ⟨m, hm, ?_, ?_⟩
      · cases hmem with
        | inl h1 => subst h1; exact List.mem_cons_self _ _
        | inr h1 => exact List.mem_cons_of_mem _ h1
      · intro c hc hce
        rcases List.mem_cons.mp hc with h1 | h1
        · subst h1; exact hle
        · exact hall c h1 hce
    · have hstep : (process_evaluator_value sp k v).2.min_values e = none := by
        rw [process_evaluator_value_other sp k e v hk, h]
      have hseen1 : ∃ c ∈ rest, c.1 = e := by
        obtain ⟨c, hc, hce⟩ := hseen
        rcases List.mem_cons.mp hc with h1 | h1
        · subst h1; exact absurd hce.symm hk
        · exact ⟨c, h1, hce⟩
      obtain ⟨m, hm, hmem, hall⟩ := ih _ e hstep hseen1
      refine ⟨m, hm, List.mem_cons_of_mem _ hmem, ?_⟩
      intro c hc hce
      rcases List.mem_cons.mp hc with h1 | h1
      · subst h1; exact absurd hce.symm hk
      · exact hall c h1 hce

theorem process_calls_unseen (cs : List (EvaluatorId × Int)) :
    ∀ (sp : SearchProgress) (e : EvaluatorId), (∀ c ∈ cs, c.1 ≠ e) →
      (process_calls sp cs).min_values e = sp.min_values e := by
  induction cs with
  | nil => intro sp e _; rfl
  | cons c rest ih =>
    intro sp e h
    have hne : e ≠ c.1 := fun hh => h c (List.mem_cons_self _ _) hh.symm
    simp only [process_calls]
    rw [ih _ e (fun c1 hc1 => h c1 (List.mem_cons_of_mem _ hc1)),
      process_evaluator_value_other sp c.1 e c.2 hne]

/-- Claim C20. After any list of `process_evaluator_value` calls on a fresh
record, the value stored for an evaluator seen in the list is one of the values
processed for it and is less than or equal to all of them, and nothing is
stored for an evaluator not seen. On any record, a call (and so any list of
calls) keeps every stored value stored and leaves it less than or equal to what
it was, and a call for one evaluator leaves what is stored for every other
evaluator unchanged. -/
theorem process_evaluator_value_keeps_running_minimum (verbosity : Verbosity)
    (cs : List (EvaluatorId × Int)) (e : EvaluatorId) (hseen : ∃ c ∈ cs, c.1 = e) :
    (∃ m, (process_calls { verbosity := verbosity, min_values := fun _ => none }
          cs).min_values e = some m
        ∧ (e, m) ∈ cs ∧ ∀ c ∈ cs, c.1 = e → m ≤ c.2)
      ∧ (∀ e1, (∀ c ∈ cs, c.1 ≠ e1) →
          (process_calls { verbosity := verbosity, min_values := fun _ => none }
            cs).min_values e1 = none)
      ∧ (∀ (sp : SearchProgress) (e1 e2 : EvaluatorId) (v a : Int),
          sp.min_values e2 = some a →
          ∃ b, (process_evaluator_value sp e1 v).2.min_values e2 = some b ∧ b ≤ a)
      ∧ (∀ (sp : SearchProgress) (later : List (EvaluatorId × Int)) (e2 : EvaluatorId)
          (a : Int), sp.min_values e2 = some a →
          ∃ b, (process_calls sp later).min_values e2 = some b ∧ b ≤ a)
      ∧ (∀ (sp : SearchProgress) (e1 e2 : EvaluatorId) (v : Int), e2 ≠ e1 →
          (process_evaluator_value sp e1 v).2.min_values e2 = sp.min_values e2) := by
  refine ⟨process_calls_minimum_of_seen cs _ e rfl hseen, ?_, ?_, ?_, ?_⟩
  · intro e1 h
    rw [process_calls_unseen cs _ e1 h]
  · intro sp e1 e2 v a h
    exact process_evaluator_value_non_increasing sp e1 e2 v a h
  · intro sp later e2 a h
    obtain ⟨m, hm, hle, -, -⟩ := process_calls_non_increasing later sp e2 a h
    exact ⟨m, hm, hle⟩
  · intro sp e1 e2 v hne
    exact process_evaluator_value_other sp e1 e2 v hne

/-- Claim C20 at a concrete input: evaluator 0 in six calls for two
evaluators. -/
theorem process_evaluator_value_keeps_running_minimum_witness :
    (∃ c ∈ progress_calls, c.1 = 0)
      ∧ (∃ m, (process_calls { verbosity := .NORMAL, min_values := fun _ => none }
            progress_calls).min_values 0 = some m
          ∧ (0, m) ∈ progress_calls ∧ ∀ c ∈ progress_calls, c.1 = 0 → m ≤ c.2)
      ∧ (process_calls { verbosity := .NORMAL, min_values := fun _ => none }
          progress_calls).min_values 0 = some 3 :=
  ⟨⟨(0, 10), by decide, rfl⟩,
    (process_evaluator_value_keeps_running_minimum .NORMAL progress_calls 0
      ⟨(0, 10), by decide, rfl⟩).1,
    rfl⟩

/-! ## Progress checks add no evaluation -/

theorem callback_of_unflagged {σ : Type} (evs : EvaluatorId → Evaluator σ)
    (acc : ProgressStep) (entry : EvaluatorId × EvaluationResult)
    (hr : (evs entry.1).is_used_for_reporting_minima = false)
    (hb : (evs entry.1).is_used_for_boosting = false) :
    check_progress_callback evs acc entry = acc := by
  simp [check_progress_callback, hr, hb]

theorem callback_congr_flags {σ ρ : Type} (evs : EvaluatorId → Evaluator σ)
    (evs1 : EvaluatorId → Evaluator ρ)
    (hflags : ∀ e, (evs1 e).is_used_for_reporting_minima = (evs e).is_used_for_reporting_minima
      ∧ (evs1 e).is_used_for_boosting = (evs e).is_used_for_boosting)
    (acc : ProgressStep) (entry : EvaluatorId × EvaluationResult) :
    check_progress_callback evs1 acc entry = check_progress_callback evs acc entry := by
  simp [check_progress_callback, (hflags entry.1).1, (hflags entry.1).2]

theorem foldl_callback_frame {σ : Type} (evs : EvaluatorId → Evaluator σ)
    (l : EvaluatorCache) (e : EvaluatorId)
    (h : e ∉ cache_keys l ∨ ((evs e).is_used_for_reporting_minima = false
      ∧ (evs e).is_used_for_boosting = false)) :
    ∀ acc : ProgressStep,
      (l.foldl (check_progress_callback evs) acc).progress.min_values e
        = acc.progress.min_values e := by
  induction l with
  | nil => intro acc; rfl
  | cons entry rest ih =>
    intro acc
    have hrest : e ∉ cache_keys rest ∨ ((evs e).is_used_for_reporting_minima = false
        ∧ (evs e).is_used_for_boosting = false) := by
      cases h with
      | inl hk =>
        left
        intro hmem
        exact hk (by simp only [cache_keys, List.map_cons, List.mem_cons]; exact Or.inr hmem)
      | inr hf => exact Or.inr hf
    rw [List.foldl_cons, ih hrest]
    by_cases hk : e = entry.1
    · cases h with
      | inl hnot =>
        exact absurd (by simp [cache_keys, hk]) hnot
      | inr hf =>
        rw [hk] at hf
        rw [callback_of_unflagged evs acc entry hf.1 hf.2]
    · exact callback_min_values_other evs acc entry e hk

theorem process_evaluator_value_verbosity (sp : SearchProgress) (e : EvaluatorId) (v : Int) :
    (process_evaluator_value sp e v).2.verbosity = sp.verbosity := by
  unfold process_evaluator_value
  cases h : sp.min_values e with
  | none => rfl
  | some m => by_cases hlt : v < m <;> simp [hlt]

theorem callback_verbosity {σ : Type} (evs : EvaluatorId → Evaluator σ)
    (acc : ProgressStep) (entry : EvaluatorId × EvaluationResult) :
    (check_progress_callback evs acc entry).progress.verbosity = acc.progress.verbosity := by
  unfold check_progress_callback
  simp only
  split_ifs <;> first | rfl | exact process_evaluator_value_verbosity _ _ _

theorem foldl_callback_verbosity {σ : Type} (evs : EvaluatorId → Evaluator σ)
    (l : EvaluatorCache) :
    ∀ acc : ProgressStep,
      (l.foldl (check_progress_callback evs) acc).progress.verbosity
        = acc.progress.verbosity := by
  induction l with
  | nil => intro acc; rfl
  | cons entry rest ih =>
    intro acc
    rw [List.foldl_cons, ih, callback_verbosity]

theorem foldl_callback_filter {σ : Type} (evs : EvaluatorId → Evaluator σ)
    (l : EvaluatorCache) :
    ∀ acc : ProgressStep,
      l.foldl (check_progress_callback evs) acc =
        (l.filter (fun entry => (evs entry.1).is_used_for_reporting_minima
          || (evs entry.1).is_used_for_boosting)).foldl (check_progress_callback evs) acc := by
  induction l with
  | nil => intro acc; rfl
  | cons entry rest ih =>
    intro acc
    cases hr : (evs entry.1).is_used_for_reporting_minima <;>
      cases hb : (evs entry.1).is_used_for_boosting <;>
      simp only [List.foldl_cons, List.filter_cons, hr, hb, Bool.or_false, Bool.or_true,
        Bool.false_eq_true, if_false, if_true]
    · rw [callback_of_unflagged evs acc entry hr hb]
      exact ih acc
    · exact ih _
    · exact ih _
    · exact ih _

/-- Claim C21. The method `check_progress` takes the context as a constant and
returns the boost flag, the record and the reports: it hands back no context,
so the cache is as it was. Its outcome is the same for every table of
evaluators with the same two usage flags, whatever their `compute_result`, and
depends on the context through the cache only: no evaluation enters it. The
value recorded for an evaluator that has no entry in the cache, or that is used
neither for reporting minima nor for boosting, is unchanged, and so is the
verbosity; the outcome is that of the check on the cache without the entries of
evaluators flagged for neither. -/
theorem check_progress_adds_no_evaluation {σ : Type} (evs : EvaluatorId → Evaluator σ)
    (sp : SearchProgress) (eval_context : EvaluationContext) (e : EvaluatorId)
    (hskip : e ∉ cache_keys (get_cache eval_context)
      ∨ ((evs e).is_used_for_reporting_minima = false
        ∧ (evs e).is_used_for_boosting = false)) :
    (check_progress evs sp eval_context).progress.min_values e = sp.min_values e
      ∧ (check_progress evs sp eval_context).progress.verbosity = sp.verbosity
      ∧ check_progress evs sp eval_context =
          check_progress evs sp
            { eval_context with cache :=
              ((get_cache eval_context).filter
                (fun entry => (evs entry.1).is_used_for_reporting_minima
                  || (evs entry.1).is_used_for_boosting)) }
      ∧ (∀ (ρ : Type) (others : EvaluatorId → Evaluator ρ),
          (∀ e1, (others e1).is_used_for_reporting_minima
                = (evs e1).is_used_for_reporting_minima
              ∧ (others e1).is_used_for_boosting = (evs e1).is_used_for_boosting) →
          check_progress others sp eval_context = check_progress evs sp eval_context)
      ∧ (∀ state operator_id preferred statistics calculate_preferred,
          check_progress evs sp
              { cache := get_cache eval_context, state := state, operator_id := operator_id,
                preferred := preferred, statistics := statistics,
                calculate_preferred := calculate_preferred }
            = check_progress evs sp eval_context) := by
  refine ⟨foldl_callback_frame evs _ e hskip _, foldl_callback_verbosity evs _ _, ?_, ?_, ?_⟩
  · exact foldl_callback_filter evs _ _
  · intro ρ others hflags
    unfold check_progress
    congr 1
    funext acc entry
    exact callback_congr_flags evs others hflags acc entry
  · intro _ _ _ _ _
    rfl

/-- Claim C21 at a concrete input: evaluator 7 has no entry in the cache, and
the record of evaluator 3, which has one, does change. -/
theorem check_progress_adds_no_evaluation_witness :
    (7 ∉ cache_keys (get_cache evaluated_context)
        ∨ ((plus_five_evaluators 7).is_used_for_reporting_minima = false
          ∧ (plus_five_evaluators 7).is_used_for_boosting = false))
      ∧ (check_progress plus_five_evaluators fresh_progress
          evaluated_context).progress.min_values 7 = none
      ∧ (check_progress plus_five_evaluators fresh_progress
          evaluated_context).progress.min_values 3 = some 6 :=
  ⟨Or.inl (by decide),
    (check_progress_adds_no_evaluation plus_five_evaluators fresh_progress evaluated_context
      7 (Or.inl (by decide))).1,
    rfl⟩

/-! ## Sequences of accessor calls -/

theorem call_accessor_eq {σ : Type} (evs : EvaluatorId → Evaluator σ) (E : EvaluatorId)
    (w : World σ) (a : Accessor) :
    call_accessor evs E w a = (field_of (get_result evs E w).1 a, (get_result evs E w).2) := by
  cases a <;> rfl

theorem call_accessors_of_initialized {σ : Type} (evs : EvaluatorId → Evaluator σ)
    (E : EvaluatorId) (accessors : List Accessor) (w : World σ)
    (h : (cache_at w.ctx.cache E).is_uninitialized = false) :
    call_accessors evs E accessors w =
      (accessors.map (field_of (cache_at w.ctx.cache E)), w) := by
  induction accessors with
  | nil => rfl
  | cons a rest ih =>
    simp only [call_accessors, call_accessor_eq, get_result_of_initialized evs E w h, ih,
      List.map_cons]

/-- Claim C22. On a context whose slot for `E` is uninitialized, every
non-empty list of calls of `is_evaluator_value_infinite(E)`,
`get_evaluator_value_or_infinity(E)`, `get_preferred_operators(E)` and
`get_result(E)` returns, call by call, the corresponding field of the one
result that the call of `compute_result` of `E` made by the first accessor
returned, provided that result is an initialized one; `compute_result` receives
the context and may itself call `get_result` on it. The world afterwards is the
one a single `get_result(E)` leaves: the calls after the first compute nothing.
The ghost log afterwards is the log that the one run of `compute_result` left,
which started from the old log extended by `E`; so `E` is logged exactly once
more than before unless that run logged `E` itself. The answer of
`is_evaluator_value_infinite` is true exactly when the answer of
`get_evaluator_value_or_infinity` is `INFTY`. -/
theorem accessors_share_one_result {σ : Type} (evs : EvaluatorId → Evaluator σ)
    (E : EvaluatorId) (w : World σ) (accessors : List Accessor)
    (hcalls : accessors ≠ [])
    (hfresh : (cache_at w.ctx.cache E).is_uninitialized = true)
    (hvalid : ((evs E).compute_result (entered w E)).1.is_uninitialized = false) :
    (call_accessors evs E accessors w).1 =
        accessors.map (field_of ((evs E).compute_result (entered w E)).1)
      ∧ (call_accessors evs E accessors w).2 = (get_result evs E w).2
      ∧ (call_accessors evs E accessors w).2.computed
          = ((evs E).compute_result (entered w E)).2.computed
      ∧ (entered w E).computed = w.computed ++ [E]
      ∧ (((evs E).compute_result (entered w E)).2.computed.count E
            = (entered w E).computed.count E →
          (call_accessors evs E accessors w).2.computed.count E = w.computed.count E + 1)
      ∧ (∀ r : EvaluationResult,
          field_of r .is_evaluator_value_infinite = .infinite true ↔
            field_of r .get_evaluator_value_or_infinity = .value EvaluationResult.INFTY) := by
  obtain ⟨a, rest, rfl⟩ : ∃ a rest, accessors = a :: rest := by
    cases accessors with
    | nil => exact absurd rfl hcalls
    | cons a rest => exact ⟨a, rest, rfl⟩
  have hfst := get_result_fst_of_uninitialized evs E w hfresh
  have hslot := get_result_slot_of_uninitialized evs E w hfresh
  have hfilled : (cache_at (get_result evs E w).2.ctx.cache E).is_uninitialized = false := by
    rw [hslot, hfst]
    exact hvalid
  have hrest := call_accessors_of_initialized evs E rest (get_result evs E w).2 hfilled
  have hlog := get_result_computed_of_uninitialized evs E w hfresh
  have hend : (call_accessors evs E (a :: rest) w).2 = (get_result evs E w).2 := by
    simp only [call_accessors, call_accessor_eq, hrest]
  refine ⟨?_, hend, ?_, ?_, ?_, ?_⟩
  · simp only [call_accessors, call_accessor_eq, hrest, hslot, hfst, List.map_cons]
  · rw [hend, hlog]
  · simp [entered]
  · intro hquiet
    rw [hend, hlog, hquiet]
    simp [entered]
  · intro r
    simp [field_of, EvaluationResult.is_infinite, EvaluationResult.get_evaluator_value]

/-- Claim C22 at a concrete input: the four accessors called once each for the
weighted evaluator 1, of weight 3 around evaluator 0, on a fresh context of
state 1. -/
theorem accessors_share_one_result_witness :
    four_accessors ≠ []
      ∧ (cache_at fresh_world.ctx.cache 1).is_uninitialized = true
      ∧ (call_accessors weighted_evaluators 1 four_accessors fresh_world).1 =
          [.infinite false, .value 18, .preferred_operators [],
            .result (EvaluationResult.fresh.set_evaluator_value 18)]
      ∧ (call_accessors weighted_evaluators 1 four_accessors fresh_world).2.computed = [1, 0]
      ∧ (call_accessors weighted_evaluators 1 four_accessors fresh_world).2.computed.count 1
          = 1 :=
  ⟨by decide, rfl,
    (accessors_share_one_result weighted_evaluators 1 fresh_world four_accessors
      (by decide) rfl rfl).1,
    (accessors_share_one_result weighted_evaluators 1 fresh_world four_accessors
      (by decide) rfl rfl).2.2.1,
    (accessors_share_one_result weighted_evaluators 1 fresh_world four_accessors
      (by decide) rfl rfl).2.2.2.2.1 rfl⟩

/-! ## The search loop without timeout -/

theorem search_loop_continue {τ : Type} (hooks : EngineHooks τ) (is_expired : Nat → Bool)
    (fuel checks : Nat) (e : SearchEngine τ) (h : e.status = .IN_PROGRESS)
    (hexp : is_expired checks = false) :
    search_loop hooks is_expired (fuel + 1) checks e =
      search_loop hooks is_expired fuel (checks + 1) (stepped hooks e) := by
  simp only [search_loop, h, if_true, hexp]
  rfl

theorem run_steps_calls {τ : Type} (hooks : EngineHooks τ) (n : Nat) :
    ∀ e : SearchEngine τ, (run_steps hooks n e).calls = e.calls ++ List.replicate n .step := by
  induction n with
  | zero => intro e; simp [run_steps]
  | succ n ih =>
    intro e
    rw [run_steps, ih, stepped, List.replicate_succ]
    simp

theorem run_steps_succ {τ : Type} (hooks : EngineHooks τ) (n : Nat) :
    ∀ e : SearchEngine τ,
      run_steps hooks (n + 1) e = stepped hooks (run_steps hooks n e) := by
  induction n with
  | zero => intro e; rfl
  | succ n ih =>
    intro e
    rw [run_steps, ih (stepped hooks e)]
    rfl

theorem search_loop_runs_to_first_terminal {τ : Type} (hooks : EngineHooks τ)
    (is_expired : Nat → Bool) (hnever : ∀ k, is_expired k = false) (n : Nat) :
    ∀ (e : SearchEngine τ) (checks fuel : Nat), e.status = .IN_PROGRESS →
      (∀ k, k < n → (hooks.step (run_steps hooks k e)).1 = .IN_PROGRESS) →
      (hooks.step (run_steps hooks n e)).1 ≠ .IN_PROGRESS →
      n < fuel →
      search_loop hooks is_expired fuel checks e = some (run_steps hooks (n + 1) e) := by
  induction n with
  | zero =>
    intro e checks fuel hs _ hlast hfuel
    obtain ⟨f, rfl⟩ : ∃ f, fuel = f + 1 := ⟨fuel - 1, by omega⟩
    rw [search_loop_continue hooks is_expired f checks e hs (hnever checks)]
    exact search_loop_of_terminal hooks is_expired f (checks + 1) _ hlast
  | succ n ih =>
    intro e checks fuel hs hbefore hlast hfuel
    obtain ⟨f, rfl⟩ : ∃ f, fuel = f + 1 := ⟨fuel - 1, by omega⟩
    rw [search_loop_continue hooks is_expired f checks e hs (hnever checks)]
    have hs1 : (stepped hooks e).status = .IN_PROGRESS := hbefore 0 (by omega)
    exact ih (stepped hooks e) (checks + 1) f hs1
      (fun k hk => hbefore (k + 1) (by omega)) hlast (by omega)

theorem search_loop_out_of_fuel {τ : Type} (hooks : EngineHooks τ)
    (is_expired : Nat → Bool) (hnever : ∀ k, is_expired k = false) (fuel : Nat) :
    ∀ (e : SearchEngine τ) (checks : Nat), e.status = .IN_PROGRESS →
      (∀ k, k < fuel → (hooks.step (run_steps hooks k e)).1 = .IN_PROGRESS) →
      search_loop hooks is_expired fuel checks e = none := by
  induction fuel with
  | zero =>
    intro e checks hs _
    simp [search_loop, hs]
  | succ f ih =>
    intro e checks hs hbefore
    rw [search_loop_continue hooks is_expired f checks e hs (hnever checks)]
    exact ih (stepped hooks e) (checks + 1) (hbefore 0 (by omega))
      (fun k hk => hbefore (k + 1) (by omega))

/-- Claim C23. Let the timer never be expired and let the status be
`IN_PROGRESS`. Let `e1` be the engine after the one call of `initialize()`:
the status of `e`, the members as the hook of the derived class returned them,
and the log extended by that call. Let the call of `step()` with number `n`
(counted from 0), made on `e1` after `n` iterations, be the first to return a
status other than `IN_PROGRESS`. Then `search()` returns for every fuel above
`n`, with the engine after `n + 1` iterations from `e1`: its status and its
members are what that call of `step()` returned, and its log is the old log,
one `initialize()` and `n + 1` calls of `step()`. With fuel `n` or less the
loop is still running. A call of `search()` on an engine whose status is not
`IN_PROGRESS` calls `initialize()`, makes no call of `step()` and leaves the
status unchanged. -/
theorem search_steps_until_first_terminal {τ : Type} (hooks : EngineHooks τ)
    (is_expired : Nat → Bool) (e e1 : SearchEngine τ) (n fuel : Nat)
    (hnever : ∀ k, is_expired k = false)
    (hstart : e.status = .IN_PROGRESS)
    (hinit : e1 = { status := e.status, data := hooks.init_hook e,
                    calls := e.calls ++ [.init] })
    (hbefore : ∀ k, k < n → (hooks.step (run_steps hooks k e1)).1 = .IN_PROGRESS)
    (hlast : (hooks.step (run_steps hooks n e1)).1 ≠ .IN_PROGRESS)
    (hfuel : n < fuel) :
    search hooks is_expired fuel e = some (run_steps hooks (n + 1) e1)
      ∧ get_status (run_steps hooks (n + 1) e1) = (hooks.step (run_steps hooks n e1)).1
      ∧ (run_steps hooks (n + 1) e1).data = (hooks.step (run_steps hooks n e1)).2
      ∧ (run_steps hooks n e1).calls = e.calls ++ [.init] ++ List.replicate n .step
      ∧ (run_steps hooks (n + 1) e1).calls
          = e.calls ++ [.init] ++ List.replicate (n + 1) .step
      ∧ (∀ small, small ≤ n → search hooks is_expired small e = none)
      ∧ (∀ (e0 : SearchEngine τ) (fuel0 : Nat), e0.status ≠ .IN_PROGRESS →
          search hooks is_expired fuel0 e0
              = some { status := e0.status, data := hooks.init_hook e0,
                       calls := e0.calls ++ [.init] }
            ∧ step_calls (e0.calls ++ [.init]) = step_calls e0.calls) := by
  have hinit1 : after_init hooks e = e1 := by
    rw [hinit]
    rfl
  have hstart1 : e1.status = .IN_PROGRESS := by
    rw [hinit]
    exact hstart
  have hcalls1 : e1.calls = e.calls ++ [.init] := by rw [hinit]
  refine ⟨?_, ?_, ?_, ?_, ?_, ?_, ?_⟩
  · show search_loop hooks is_expired fuel 0 (after_init hooks e) = _
    rw [hinit1]
    exact search_loop_runs_to_first_terminal hooks is_expired hnever n e1 0 fuel hstart1
      hbefore hlast hfuel
  · rw [run_steps_succ]
    rfl
  · rw [run_steps_succ]
    rfl
  · rw [run_steps_calls, hcalls1]
  · rw [run_steps_calls, hcalls1]
  · intro small hsmall
    show search_loop hooks is_expired small 0 (after_init hooks e) = none
    rw [hinit1]
    exact search_loop_out_of_fuel hooks is_expired hnever small e1 0 hstart1
      (fun k hk => hbefore k (by omega))
  · intro e0 fuel0 hterm
    exact ⟨search_loop_of_terminal hooks is_expired fuel0 0 (after_init hooks e0) hterm,
      step_calls_append_init e0.calls⟩

/-- Claim C23 at a concrete input: an engine whose `initialize()` sets its
counter from 0 to 2, so that the third `step()` is the first to return a status
other than `IN_PROGRESS`, namely `FAILED`. -/
theorem search_steps_until_first_terminal_witness :
    (SearchEngine.constructed INT_MAX 0 : SearchEngine Nat).status = .IN_PROGRESS
      ∧ (armed_countdown_hooks.init_hook (SearchEngine.constructed INT_MAX 0)).derived = 2
      ∧ (∃ e2, search armed_countdown_hooks (fun _ => false) 5
            (SearchEngine.constructed INT_MAX 0) = some e2
        ∧ get_status e2 = .FAILED
        ∧ e2.data.derived = 0
        ∧ e2.calls = [.init, .step, .step, .step]) :=
  ⟨rfl, rfl, _,
    (search_steps_until_first_terminal armed_countdown_hooks (fun _ => false)
      (SearchEngine.constructed INT_MAX 0) _ 2 5 (fun _ => rfl) rfl rfl
      (by decide) (by decide) (by decide)).1,
    rfl, rfl, rfl⟩

/-! ## Notification histories -/

theorem notify_state_transition_asserts (g g1 : GEvaluator) (parent_state state : State)
    (index : Nat)
    (h : g.notify_state_transition parent_state (some index) state = some g1) :
    0 ≤ (g.heuristic_cache parent_state).h
      ∧ ((g.heuristic_cache state).h = g.NO_VALUE ∨ 0 ≤ (g.heuristic_cache state).h) := by
  simp only [GEvaluator.notify_state_transition] at h
  by_cases hp : (g.heuristic_cache parent_state).h ≥ 0
  · by_cases ho : (g.heuristic_cache state).h = g.NO_VALUE ∨ (g.heuristic_cache state).h ≥ 0
    · exact ⟨hp, ho⟩
    · simp [hp, ho] at h
  · simp [hp] at h

theorem calls_append (cs ds : List GEvaluator.Call) :
    ∀ g : GEvaluator, g.calls (cs ++ ds) = (g.calls cs).bind (fun g1 => g1.calls ds) := by
  induction cs with
  | nil => intro g; rfl
  | cons c rest ih =>
    intro g
    simp only [List.cons_append, GEvaluator.calls]
    cases hc : g.call c with
    | none => rfl
    | some g1 =>
      simp only [Option.some_bind]
      exact ih g1

theorem transitions_keep_costs_valid (transitions : List GEvaluator.Transition) :
    ∀ (g : GEvaluator) (reached : List State),
      (∀ s, (g.heuristic_cache s).h = g.NO_VALUE ∨ 0 ≤ (g.heuristic_cache s).h) →
      (∀ s ∈ reached, 0 ≤ (g.heuristic_cache s).h) →
      GEvaluator.parents_reached reached transitions →
      (∀ t ∈ transitions, 0 ≤ g.get_cost t.index) →
      GEvaluator.sums_in_range g (transitions.map (fun t =>
        GEvaluator.Call.notify_state_transition t.parent_state (some t.index) t.state)) →
      ∃ g1, g.calls (transitions.map (fun t =>
          GEvaluator.Call.notify_state_transition t.parent_state (some t.index) t.state))
          = some g1
        ∧ (∀ s, (g1.heuristic_cache s).h = g1.NO_VALUE ∨ 0 ≤ (g1.heuristic_cache s).h)
        ∧ (∀ s ∈ reached, 0 ≤ (g1.heuristic_cache s).h)
        ∧ (∀ t ∈ transitions, 0 ≤ (g1.heuristic_cache t.state).h) := by
  induction transitions with
  | nil =>
    intro g reached hvalid hreached _ _ _
    exact ⟨g, rfl, hvalid, hreached, by simp⟩
  | cons t rest ih =>
    intro g reached hvalid hreached hparents hcosts hrange
    obtain ⟨hparent, hparents1⟩ := hparents
    have hp : 0 ≤ (g.heuristic_cache t.parent_state).h := hreached _ hparent
    have hcost : 0 ≤ g.get_cost t.index := hcosts t (List.mem_cons_self _ _)
    simp only [List.map_cons, GEvaluator.sums_in_range] at hrange
    obtain ⟨hsum, hrange1⟩ := hrange
    obtain ⟨g1, hcall, hentry, -, hframe, hnv, hgc, hadd⟩ :=
      notify_state_transition_spec g t.parent_state t.state t.index hp (hvalid t.state)
    have hnew : int_add (g.heuristic_cache t.parent_state).h (g.get_cost t.index)
        = (g.heuristic_cache t.parent_state).h + g.get_cost t.index :=
      hadd ⟨by omega, hsum⟩
    rw [hnew] at hentry
    have hchild : 0 ≤ (g1.heuristic_cache t.state).h := by
      rw [hentry]
      by_cases hup : (g.heuristic_cache t.state).h = g.NO_VALUE
          ∨ (g.heuristic_cache t.parent_state).h + g.get_cost t.index
            < (g.heuristic_cache t.state).h
      · simp only [hup, if_true]; omega
      · simp only [hup, if_false]
        have hno : ¬ (g.heuristic_cache t.state).h = g.NO_VALUE := fun h => hup (Or.inl h)
        exact (hvalid t.state).resolve_left hno
    have hvalid1 : ∀ s, (g1.heuristic_cache s).h = g1.NO_VALUE
        ∨ 0 ≤ (g1.heuristic_cache s).h := by
      intro s
      by_cases hs : s = t.state
      · subst hs; exact Or.inr hchild
      · rw [hframe s hs, hnv]; exact hvalid s
    have hreached1 : ∀ s ∈ t.state :: reached, 0 ≤ (g1.heuristic_cache s).h := by
      intro s hs
      by_cases hst : s = t.state
      · subst hst; exact hchild
      · rw [hframe s hst]
        rcases List.mem_cons.mp hs with h1 | h1
        · exact absurd h1 hst
        · exact hreached s h1
    have hcallc : g.call (GEvaluator.Call.notify_state_transition t.parent_state
        (some t.index) t.state) = some g1 := hcall
    rw [hcallc] at hrange1
    obtain ⟨g2, hrun, hvalid2, hreached2, hchildren2⟩ :=
      ih g1 (t.state :: reached) hvalid1 hreached1 hparents1
        (fun t1 ht1 => by rw [hgc]; exact hcosts t1 (List.mem_cons_of_mem _ ht1)) hrange1
    refine ⟨g2, ?_, hvalid2, fun s hs => hreached2 s (List.mem_cons_of_mem _ hs), ?_⟩
    · simp only [List.map_cons, GEvaluator.calls, hcallc, Option.some_bind]
      exact hrun
    · intro t1 ht1
      rcases List.mem_cons.mp ht1 with h1 | h1
      · subst h1; exact hreached2 _ (List.mem_cons_self _ _)
      · exact hchildren2 t1 h1

theorem history_keeps_costs_valid (g : GEvaluator) (initial_state : State)
    (transitions : List GEvaluator.Transition)
    (hunset : ∀ s, (g.heuristic_cache s).h = g.NO_VALUE ∨ 0 ≤ (g.heuristic_cache s).h)
    (hparents : GEvaluator.parents_reached [initial_state] transitions)
    (hcosts : ∀ t ∈ transitions, 0 ≤ g.get_cost t.index)
    (hrange : GEvaluator.sums_in_range g (GEvaluator.history initial_state transitions)) :
    ∃ g1, g.calls (GEvaluator.history initial_state transitions) = some g1
      ∧ (∀ s, (g1.heuristic_cache s).h = g1.NO_VALUE ∨ 0 ≤ (g1.heuristic_cache s).h) := by
  simp only [GEvaluator.history, GEvaluator.sums_in_range, GEvaluator.call, true_and] at hrange
  have hvalid0 : ∀ s, ((g.notify_initial_state initial_state).heuristic_cache s).h
      = (g.notify_initial_state initial_state).NO_VALUE
        ∨ 0 ≤ ((g.notify_initial_state initial_state).heuristic_cache s).h := by
    intro s
    by_cases hs : s = initial_state
    · subst hs; right; simp [GEvaluator.notify_initial_state]
    · simpa [GEvaluator.notify_initial_state, Function.update, hs] using hunset s
  have hreached0 : ∀ s ∈ [initial_state],
      0 ≤ ((g.notify_initial_state initial_state).heuristic_cache s).h := by
    intro s hs
    simp only [List.mem_singleton] at hs
    subst hs
    simp [GEvaluator.notify_initial_state]
  obtain ⟨g1, hrun, hvalid1, -, -⟩ :=
    transitions_keep_costs_valid transitions (g.notify_initial_state initial_state)
      [initial_state] hvalid0 hreached0 hparents hcosts hrange
  refine ⟨g1, ?_, hvalid1⟩
  simp only [GEvaluator.history, GEvaluator.calls, GEvaluator.call, Option.some_bind]
  exact hrun

theorem parents_reached_of_append (before after : List GEvaluator.Transition) :
    ∀ reached : List State, GEvaluator.parents_reached reached (before ++ after) →
      GEvaluator.parents_reached reached before := by
  induction before with
  | nil => intro _ _; trivial
  | cons t rest ih =>
    intro reached h
    exact ⟨h.1, ih _ h.2⟩

theorem sums_in_range_of_append (cs ds : List GEvaluator.Call) :
    ∀ g : GEvaluator, GEvaluator.sums_in_range g (cs ++ ds) → GEvaluator.sums_in_range g cs := by
  induction cs with
  | nil => intro _ _; trivial
  | cons c rest ih =>
    intro g h
    simp only [List.cons_append, GEvaluator.sums_in_range] at h ⊢
    refine ⟨h.1, ?_⟩
    cases hc : g.call c with
    | none => trivial
    | some g1 =>
      have h2 := h.2
      rw [hc] at h2
      exact ih g1 h2

theorem history_append (initial_state : State) (before after : List GEvaluator.Transition) :
    GEvaluator.history initial_state (before ++ after) =
      GEvaluator.history initial_state before ++ after.map (fun t =>
        GEvaluator.Call.notify_state_transition t.parent_state (some t.index) t.state) := by
  simp [GEvaluator.history]

/-- Claim C24. Let every cached cost be `NO_VALUE` or non-negative before the
history, as in an evaluator that has cached nothing. Let the history be
`notify_initial_state` followed by transitions in which each parent is the
initial state or the child of an earlier transition, with non-negative
operator costs and with sums of parent cost and operator cost that do not
exceed the largest int. Then no call of the history fails, every cached cost
is `NO_VALUE` or non-negative after the history and before each of its
transitions, and at each `notify_state_transition` both asserted conditions
hold: the parent's cost is non-negative and the child's cost is `NO_VALUE` or
non-negative. -/
theorem notification_histories_keep_assertions (g : GEvaluator) (initial_state : State)
    (transitions : List GEvaluator.Transition)
    (hunset : ∀ s, (g.heuristic_cache s).h = g.NO_VALUE ∨ 0 ≤ (g.heuristic_cache s).h)
    (hparents : GEvaluator.parents_reached [initial_state] transitions)
    (hcosts : ∀ t ∈ transitions, 0 ≤ g.get_cost t.index)
    (hrange : GEvaluator.sums_in_range g (GEvaluator.history initial_state transitions)) :
    (∃ g1, g.calls (GEvaluator.history initial_state transitions) = some g1
        ∧ ∀ s, (g1.heuristic_cache s).h = g1.NO_VALUE ∨ 0 ≤ (g1.heuristic_cache s).h)
      ∧ (∀ (before after : List GEvaluator.Transition) (t : GEvaluator.Transition),
          transitions = before ++ t :: after →
          ∃ g0, g.calls (GEvaluator.history initial_state before) = some g0
            ∧ (∀ s, (g0.heuristic_cache s).h = g0.NO_VALUE ∨ 0 ≤ (g0.heuristic_cache s).h)
            ∧ 0 ≤ (g0.heuristic_cache t.parent_state).h
            ∧ ((g0.heuristic_cache t.state).h = g0.NO_VALUE
              ∨ 0 ≤ (g0.heuristic_cache t.state).h)) := by
  have hall := history_keeps_costs_valid g initial_state transitions hunset hparents hcosts
    hrange
  refine ⟨hall, ?_⟩
  intro before after t hsplit
  subst hsplit
  obtain ⟨g1, hrun, -⟩ := hall
  have hparents0 := parents_reached_of_append before (t :: after) [initial_state] hparents
  have hrange0 : GEvaluator.sums_in_range g (GEvaluator.history initial_state before) := by
    rw [history_append] at hrange
    exact sums_in_range_of_append _ _ g hrange
  obtain ⟨g0, hrun0, hvalid0⟩ := history_keeps_costs_valid g initial_state before hunset
    hparents0 (fun t1 ht1 => hcosts t1 (List.mem_append_left _ ht1)) hrange0
  refine ⟨g0, hrun0, hvalid0, ?_⟩
  rw [history_append, calls_append, hrun0, Option.some_bind] at hrun
  simp only [List.map_cons, GEvaluator.calls, GEvaluator.call] at hrun
  cases hcall : g0.notify_state_transition t.parent_state (some t.index) t.state with
  | none => simp [hcall] at hrun
  | some g2 => exact notify_state_transition_asserts g0 g2 _ _ _ hcall

/-- Claim C24 at the history of the spec's example, in which `S2` ends with
cost 5. -/
theorem notification_histories_keep_assertions_witness :
    GEvaluator.parents_reached [0] three_transitions
      ∧ (∀ t ∈ three_transitions, 0 ≤ g_three_costs.get_cost t.index)
      ∧ ∃ g1, g_three_costs.calls (GEvaluator.history 0 three_transitions) = some g1
        ∧ (∀ s, (g1.heuristic_cache s).h = g1.NO_VALUE ∨ 0 ≤ (g1.heuristic_cache s).h)
        ∧ (g1.heuristic_cache 2).h = 5 := by
  have hparents : GEvaluator.parents_reached [0] three_transitions := by
    simp [GEvaluator.parents_reached, three_transitions]
  have hcosts : ∀ t ∈ three_transitions, 0 ≤ g_three_costs.get_cost t.index := by decide
  have hrange : GEvaluator.sums_in_range g_three_costs
      (GEvaluator.history 0 three_transitions) := by
    refine ⟨trivial, ?_⟩
    refine ⟨by decide, ?_⟩
    refine ⟨by decide, ?_⟩
    exact ⟨by decide, trivial⟩
  refine ⟨hparents, hcosts, ?_⟩
  obtain ⟨g1, hrun, hvalid⟩ :=
    (notification_histories_keep_assertions g_three_costs 0 three_transitions
      (fun _ => Or.inl rfl) hparents hcosts hrange).1
  refine ⟨g1, hrun, hvalid, ?_⟩
  have hrun1 : g_three_costs.calls (GEvaluator.history 0 three_transitions)
      = some (GEvaluator.mk (-2) g_three_costs.get_cost
        (Function.update (Function.update (Function.update
          g_three_costs.heuristic_cache 0 (HEntry.mk 0 true)) 1 (HEntry.mk 3 true))
          2 (HEntry.mk 5 true))) := by
    simp [GEvaluator.calls, GEvaluator.history, three_transitions, GEvaluator.call,
      GEvaluator.notify_initial_state, GEvaluator.notify_state_transition, g_three_costs,
      int_add, wrap_int, Function.update]
  rw [hrun1] at hrun
  cases hrun
  rfl

/-! ## Edge estimates -/

/-- Claim C25. Let the parent's cached cost be non-negative and the child's be
`NO_VALUE` or non-negative. The value that `compute_result` returns on the edge
context of the parent and an operator is the int sum of the parent's cost and
the operator's cost, the candidate of `notify_state_transition`, and the
evaluator is unchanged by it. The notification that follows succeeds: when it
updates the child, the child's entry is that value with the dirty flag set and
a no-operator query on the child returns exactly that value; when it does not,
the evaluator is unchanged and the query returns a value less than or equal to
it. -/
theorem edge_estimate_agrees_with_settled_cost (g : GEvaluator)
    (edge_context child_context : EvaluationContext) (index : Nat)
    (hedge : EdgeEvaluationContext.get_operator_id edge_context = some index)
    (hchild : EdgeEvaluationContext.get_operator_id child_context = OperatorID.no_operator)
    (hparent : 0 ≤ (g.heuristic_cache (get_state edge_context)).h)
    (hold : (g.heuristic_cache (get_state child_context)).h = g.NO_VALUE
      ∨ 0 ≤ (g.heuristic_cache (get_state child_context)).h) :
    (g.compute_result edge_context).1.get_evaluator_value
        = int_add (g.heuristic_cache (get_state edge_context)).h (g.get_cost index)
      ∧ ∃ g1, (g.compute_result edge_context).2.notify_state_transition
            (get_state edge_context) (some index) (get_state child_context) = some g1
        ∧ (if (g.heuristic_cache (get_state child_context)).h = g.NO_VALUE
              ∨ (g.compute_result edge_context).1.get_evaluator_value
                < (g.heuristic_cache (get_state child_context)).h then
            g1.heuristic_cache (get_state child_context)
                = HEntry.mk (g.compute_result edge_context).1.get_evaluator_value true
              ∧ (g1.compute_result child_context).1.get_evaluator_value
                = (g.compute_result edge_context).1.get_evaluator_value
          else
            g1 = g
              ∧ (g1.compute_result child_context).1.get_evaluator_value
                ≤ (g.compute_result edge_context).1.get_evaluator_value) := by
  have hvalue : (g.compute_result edge_context).1.get_evaluator_value
      = int_add (g.heuristic_cache (get_state edge_context)).h (g.get_cost index) := by
    simp [GEvaluator.compute_result, hedge, EvaluationResult.get_evaluator_value,
      EvaluationResult.set_evaluator_value]
  have hsame : (g.compute_result edge_context).2 = g := by
    simp [GEvaluator.compute_result, hedge]
  have hquery : ∀ g1 : GEvaluator, (g1.compute_result child_context).1.get_evaluator_value
      = (g1.heuristic_cache (get_state child_context)).h := by
    intro g1
    have hnone : EdgeEvaluationContext.get_operator_id child_context = none := hchild
    simp [GEvaluator.compute_result, hnone, EvaluationResult.get_evaluator_value,
      EvaluationResult.set_evaluator_value]
  refine ⟨hvalue, ?_⟩
  rw [hsame, hvalue]
  by_cases hup : (g.heuristic_cache (get_state child_context)).h = g.NO_VALUE
      ∨ int_add (g.heuristic_cache (get_state edge_context)).h (g.get_cost index)
        < (g.heuristic_cache (get_state child_context)).h
  · have hcall : g.notify_state_transition (get_state edge_context) (some index)
          (get_state child_context) =
        some { g with heuristic_cache :=
          (Function.update g.heuristic_cache (get_state child_context)
            (HEntry.mk (int_add (g.heuristic_cache (get_state edge_context)).h
              (g.get_cost index)) true)) } := by
      have hp : (g.heuristic_cache (get_state edge_context)).h ≥ 0 := hparent
      have ho : (g.heuristic_cache (get_state child_context)).h = g.NO_VALUE
          ∨ (g.heuristic_cache (get_state child_context)).h ≥ 0 := hold
      simp only [GEvaluator.notify_state_transition, hp, ho, hup, if_true]
    refine ⟨_, hcall, ?_⟩
    simp only [hup, if_true, hquery, Function.update_same, and_self]
  · have hcall : g.notify_state_transition (get_state edge_context) (some index)
          (get_state child_context) = some g := by
      have hp : (g.heuristic_cache (get_state edge_context)).h ≥ 0 := hparent
      have ho : (g.heuristic_cache (get_state child_context)).h = g.NO_VALUE
          ∨ (g.heuristic_cache (get_state child_context)).h ≥ 0 := hold
      simp only [GEvaluator.notify_state_transition, hp, ho, hup, if_true, if_false]
    refine ⟨g, hcall, ?_⟩
    simp only [hup, if_false, hquery, true_and]
    have hge : ¬ int_add (g.heuristic_cache (get_state edge_context)).h (g.get_cost index)
        < (g.heuristic_cache (get_state child_context)).h := fun h => hup (Or.inr h)
    exact not_lt.mp hge

/-- Claim C25 at a concrete input: the edge from `S1` (cost 3) by operator 1
(cost 4) into `S2`. -/
theorem edge_estimate_agrees_with_settled_cost_witness :
    EdgeEvaluationContext.get_operator_id edge_context_S1 = some 1
      ∧ EdgeEvaluationContext.get_operator_id state_context_S2 = OperatorID.no_operator
      ∧ 0 ≤ (g_at_S1.heuristic_cache (get_state edge_context_S1)).h
      ∧ (g_at_S1.compute_result edge_context_S1).1.get_evaluator_value
          = int_add (g_at_S1.heuristic_cache (get_state edge_context_S1)).h
              (g_at_S1.get_cost 1)
      ∧ (g_at_S1.compute_result edge_context_S1).1.get_evaluator_value = 7 :=
  ⟨rfl, rfl, by decide,
    (edge_estimate_agrees_with_settled_cost g_at_S1 edge_context_S1 state_context_S2 1
      rfl rfl (by decide) (Or.inl rfl)).1,
    rfl⟩

end Downward
